import Mathlib

/-!
Verification of the CVRPTW routing core of Sistema_Enrutamiento_Vehiculos
(src/algoritmo.py, src/main.py), as a shallow embedding.

Modelling conventions:
* Python floats are modelled as exact rationals (ℚ); `float('inf')` sentinels
  as `⊤` in `WithTop ℚ`.
* `datetime` clocks are minutes-of-day as rationals; `HORA_INICIO = "08:00"`
  parses to 480.  `datetime.strptime(s, "%H:%M")` on a contract-valid
  zero-padded string is `parseHHMM`.
* The geodesic primitive `haversine_distance` is embedded over ℝ
  (transcendental, only used by the symmetry/nonnegativity claims).  The
  evaluator, cost function, greedy and SA are parameterised by an arbitrary
  distance oracle `dist : Dist`, so every theorem about them quantifies over
  the distance function, which covers the haversine instance.
* The Python dict `rutas = {v.id: [] for v in vehiculos}` (insertion-ordered,
  with the separate `vehiculos_dict` id lookup) is modelled as the list of
  (vehicle, route) pairs in fleet order; the input contract makes vehicle ids
  unique, so the pairing is exactly the dict plus its lookup.
* `random.choice` / `random.randint` / `random.sample` draws are supplied by
  an explicit `SAChoice` oracle per iteration (an index is read modulo the
  size of the sampled range, which ranges over all possible draws);
  `random.choice` on an empty sequence raises, modelled as `Option.none`,
  as is `max()` on an empty sequence in the greedy.
* `math.exp` on finite arguments is an arbitrary parameter `expFn`
  (its finite values never matter for the claims); the Python float fact
  `math.exp(-inf) = 0.0` is encoded in the acceptance function where the
  code's `delta` is the `inf` sentinel.
-/

namespace VRP

/-! ## Global configuration (src/algoritmo.py lines 8-20) -/

def VELOCIDAD_PROMEDIO_KMH : ℚ := 30
def TIEMPO_SERVICIO_MINUTOS : ℚ := 10
/-- `HORA_INICIO = "08:00"` as a minute of day. -/
def HORA_INICIO_MIN : ℚ := 480
def MAX_JORNADA_HORAS : ℚ := 8
def W_UNASSIGNED : ℚ := 600
def W_LATE : ℚ := 200
def W_OT : ℚ := 500
def W_CAP : ℚ := 20
def W_WAIT : ℚ := 1/2
def W_DIST : ℚ := 1

/-! ## Data model (src/models.py) -/

structure Vehiculo where
  id : String
  capacidad_kg : ℚ
  latitud_origen : ℚ
  longitud_origen : ℚ
deriving DecidableEq, Repr

instance : Inhabited Vehiculo := ⟨⟨"", 0, 0, 0⟩⟩

structure Pedido where
  id : String
  latitud_destino : ℚ
  longitud_destino : ℚ
  peso_kg : ℚ
  /-- "HH:MM" time-window strings, kept as character lists because the greedy
  sort key compares them as Python strings (code point lexicographic). -/
  ventana_inicio : List Char
  ventana_fin : List Char
  prioridad : ℤ
deriving DecidableEq, Repr

instance : Inhabited Pedido := ⟨⟨"", 0, 0, 0, [], [], 0⟩⟩

/-- An abstract distance oracle standing for
`haversine_distance(lat1, lon1, lat2, lon2)`. -/
abbrev Dist := ℚ → ℚ → ℚ → ℚ → ℚ

/-- Numeric value of a decimal digit character. -/
def digitVal (c : Char) : ℕ := c.toNat - 48

/-- Minute-of-day read from a zero-padded "HH:MM" character list, as
`datetime.strptime(s, "%H:%M")` reads a contract-valid window string
(total on other shapes; the input contract excludes them). -/
def parseHHMM : List Char → ℕ
  | [h1, h2, _, m1, m2] => (10 * digitVal h1 + digitVal h2) * 60 + (10 * digitVal m1 + digitVal m2)
  | _ => 0

/-- The rejection reasons the evaluator and the greedy produce.  The Python
code formats them as f-strings; only their kind and payload are modelled
(the greedy's `"; ".join(list(set(...)))` aggregation over a Python set is
collapsed to `noFactible`, its text participates in no claim). -/
inductive Razon where
  | ninguna : Razon
  | capacidadExcedida (total cap : ℚ) : Razon
  | llegadaTardia (pid : String) : Razon
  | excedeJornada (horas : ℚ) : Razon
  | pesoExcesivo (peso maxCapacidad : ℚ) : Razon
  | noFactible : Razon
deriving DecidableEq, Repr

structure RouteMetrics where
  distance_km : ℚ
  wait_minutes : ℚ
  load_kg : ℚ
  overtime_hours : ℚ
  lateness_count : ℕ
  is_feasible : Bool
  rejection_reason : Razon
deriving DecidableEq, Repr

/-- Sum of the orders' weights: `sum(p.peso_kg for p in route)`. -/
def sumPeso : List Pedido → ℚ
  | [] => 0
  | p :: rest => p.peso_kg + sumPeso rest

/-! ## Route evaluator (src/algoritmo.py lines 55-121, `calculate_route_metrics`) -/

/-- The per-stop time simulation loop of `calculate_route_metrics`
(lines 83-119): state is the accumulated metrics, the clock `t` (minutes of
day) and the current position.  The `[]` case is the workday check after the
loop (lines 113-119); a late arrival returns early with partial metrics. -/
def routeMetricsLoop (dist : Dist) (m : RouteMetrics) (t lat lon : ℚ) :
    List Pedido → RouteMetrics
  | [] =>
      let total_hours := (t - HORA_INICIO_MIN) / 60
      if total_hours > MAX_JORNADA_HORAS then
        { m with overtime_hours := total_hours - MAX_JORNADA_HORAS,
                 is_feasible := false,
                 rejection_reason := .excedeJornada total_hours }
      else m
  | pedido :: rest =>
      let d := dist lat lon pedido.latitud_destino pedido.longitud_destino
      let m1 := { m with distance_km := m.distance_km + d }
      let t1 := t + (d / VELOCIDAD_PROMEDIO_KMH) * 60
      let t_inicio : ℚ := parseHHMM pedido.ventana_inicio
      let t_fin : ℚ := parseHHMM pedido.ventana_fin
      let m2 := if t1 < t_inicio then
                  { m1 with wait_minutes := m1.wait_minutes + (t_inicio - t1) }
                else m1
      let t2 := if t1 < t_inicio then t_inicio else t1
      if t2 > t_fin then
        { m2 with lateness_count := m2.lateness_count + 1,
                  is_feasible := false,
                  rejection_reason := .llegadaTardia pedido.id }
      else
        routeMetricsLoop dist m2 (t2 + TIEMPO_SERVICIO_MINUTOS)
          pedido.latitud_destino pedido.longitud_destino rest

/-- `calculate_route_metrics(vehicle, route)`: capacity pre-check (lines
75-81), then the time simulation from 08:00 at the vehicle's origin. -/
def calculate_route_metrics (dist : Dist) (vehicle : Vehiculo) (route : List Pedido) :
    RouteMetrics :=
  let total_weight := sumPeso route
  let m0 : RouteMetrics :=
    { distance_km := 0, wait_minutes := 0, load_kg := total_weight,
      overtime_hours := 0, lateness_count := 0, is_feasible := true,
      rejection_reason := .ninguna }
  if total_weight > vehicle.capacidad_kg then
    { m0 with is_feasible := false,
              rejection_reason := .capacidadExcedida total_weight vehicle.capacidad_kg }
  else
    routeMetricsLoop dist m0 HORA_INICIO_MIN vehicle.latitud_origen vehicle.longitud_origen route

/-! ## Cost functions (src/algoritmo.py lines 123-185) -/

abbrev Route := List Pedido

/-- An entry of the `no_asignados` list: the dict `{"pedido": ..., "razon": ...}`. -/
structure Unassigned where
  pedido : Pedido
  razon : Razon
deriving DecidableEq, Repr

instance : Inhabited Unassigned := ⟨⟨default, .ninguna⟩⟩

/-- The solution's routes: the insertion-ordered dict `vehiculo.id ↦ route`
paired with `vehiculos_dict`'s id lookup (vehicle ids are unique by the
input contract). -/
abbrev Routes := List (Vehiculo × Route)

/-- `calculate_route_cost(vehicle, route)` (lines 169-185): `⊤` models the
`float('inf')` returned for an infeasible route. -/
def calculate_route_cost (dist : Dist) (vehicle : Vehiculo) (route : Route) : WithTop ℚ :=
  let m := calculate_route_metrics dist vehicle route
  if m.is_feasible = false then ⊤
  else
    let load_frac : ℚ := if vehicle.capacidad_kg > 0 then m.load_kg / vehicle.capacidad_kg else 0
    ((W_DIST * m.distance_km + W_WAIT * (m.wait_minutes / 60) + W_CAP * load_frac ^ 2 : ℚ) : WithTop ℚ)

/-- The per-route loop of `calculate_global_cost` (lines 130-154).  The code's
early `return float('inf')` on the first infeasible route is the absorbing `⊤`
here (addition with `⊤` in `WithTop ℚ` is `⊤`). -/
def routesCost (dist : Dist) : Routes → WithTop ℚ
  | [] => ((0 : ℚ) : WithTop ℚ)
  | (veh, route) :: rest =>
      let m := calculate_route_metrics dist veh route
      if m.is_feasible = false then ⊤
      else
        let load_frac : ℚ := if veh.capacidad_kg > 0 then m.load_kg / veh.capacidad_kg else 0
        let route_cost := W_DIST * m.distance_km + W_WAIT * (m.wait_minutes / 60) + W_CAP * load_frac ^ 2
        ((route_cost : ℚ) : WithTop ℚ) + routesCost dist rest

/-- The unassigned-order penalty loop of `calculate_global_cost`
(lines 156-165): `W_UNASSIGNED * prioridad ** 2` per entry. -/
def unassignedCost : List Unassigned → ℚ
  | [] => 0
  | item :: rest => W_UNASSIGNED * ((item.pedido.prioridad : ℚ)) ^ 2 + unassignedCost rest

/-- `calculate_global_cost(vehiculos_dict, routes, unassigned)` (lines 123-167). -/
def calculate_global_cost (dist : Dist) (routes : Routes) (unassigned : List Unassigned) :
    WithTop ℚ :=
  routesCost dist routes + ((unassignedCost unassigned : ℚ) : WithTop ℚ)

/-! ## Greedy constructor (src/algoritmo.py lines 187-265, `solve_vrp_greedy`) -/

/-- Python string `<`: code-point lexicographic comparison. -/
def strLt : List Char → List Char → Bool
  | [], [] => false
  | [], _ :: _ => true
  | _ :: _, [] => false
  | c :: cs, d :: ds =>
      if c.toNat < d.toNat then true
      else if d.toNat < c.toNat then false
      else strLt cs ds

/-- Python `<` on the sort keys `(-x.prioridad, x.ventana_inicio)` of
line 193 (tuple comparison: first component, then the window string). -/
def keyLt (a b : Pedido) : Bool :=
  if (-a.prioridad) < (-b.prioridad) then true
  else if (-b.prioridad) < (-a.prioridad) then false
  else strLt a.ventana_inicio b.ventana_inicio

/-- The non-strict order `sorted` sorts by: `a` may precede `b` iff the key of
`b` is not strictly below the key of `a`. -/
def pedidosLe (a b : Pedido) : Bool := !(keyLt b a)

/-- `sorted(pedidos, key=lambda x: (-x.prioridad, x.ventana_inicio))`:
Python's sort is stable, modelled by the stable `List.mergeSort`. -/
def sortPedidos (pedidos : List Pedido) : List Pedido := pedidos.mergeSort pedidosLe

/-- `max(v.capacidad_kg for v in vehiculos)`; `none` models the `ValueError`
Python's `max` raises on an empty sequence (line 207). -/
def maxCap : List Vehiculo → Option ℚ
  | [] => none
  | v :: rest =>
      match maxCap rest with
      | none => some v.capacidad_kg
      | some m => some (max v.capacidad_kg m)

/-- The running best insertion of the greedy's scan:
`best_cost_increase` starts at `float('inf')` and `best_insertion` at `None`
(lines 202-203); `bestIns` is (index of the vehicle in fleet order, position). -/
structure BestIns where
  bestDelta : WithTop ℚ
  bestIns : Option (ℕ × ℕ)
deriving DecidableEq, Repr

/-- The inner position loop `for i in range(len(current_route) + 1)`
(lines 227-244) for one vehicle, updating the running best insertion. -/
def scanPositions (dist : Dist) (v : Vehiculo) (route : Route) (pedido : Pedido)
    (vIdx : ℕ) (base_cost : ℚ) : List ℕ → BestIns → BestIns
  | [], acc => acc
  | i :: rest, acc =>
      let temp_route := route.insertIdx i pedido
      let new_cost := calculate_route_cost dist v temp_route
      let acc' :=
        if new_cost ≠ ⊤ then
          let delta := new_cost.untop' 0 - base_cost
          if ((delta : ℚ) : WithTop ℚ) < acc.bestDelta then
            { bestDelta := ((delta : ℚ) : WithTop ℚ), bestIns := some (vIdx, i) }
          else acc
        else acc
      scanPositions dist v route pedido vIdx base_cost rest acc'

/-- The outer vehicle loop `for v in vehiculos` (lines 218-244), over the
(vehicle, route) pairs tagged with their fleet index.  `base_cost` is the
current route's cost with the `inf → 0` fallback of lines 222-224. -/
def scanVehicles (dist : Dist) (pedido : Pedido) :
    List (ℕ × (Vehiculo × Route)) → BestIns → BestIns
  | [], acc => acc
  | (vIdx, (v, route)) :: rest, acc =>
      let base0 := calculate_route_cost dist v route
      let base_cost : ℚ := if base0 = ⊤ then 0 else base0.untop' 0
      let acc' := scanPositions dist v route pedido vIdx base_cost
        (List.range (route.length + 1)) acc
      scanVehicles dist pedido rest acc'

/-- A working solution: the routes plus the `no_asignados` list.  (The
derived `metricas` counts of the returned dicts are plain `len` bookkeeping
and are not modelled.) -/
structure Sol where
  routes : Routes
  unassigned : List Unassigned
deriving DecidableEq, Repr

/-- `rutas[vid].insert(idx, pedido)`: insert `p` at position `idx` of the
route at fleet index `i`. -/
def insertIntoRoute : Routes → ℕ → ℕ → Pedido → Routes
  | [], _, _, _ => []
  | (v, r) :: rest, 0, idx, p => (v, r.insertIdx idx p) :: rest
  | q :: rest, i + 1, idx, p => q :: insertIntoRoute rest i idx p

/-- Replace the route at fleet index `i` (in-place list mutation through the
dict in Python). -/
def modifyRoute : Routes → ℕ → Route → Routes
  | [], _, _ => []
  | (v, _) :: rest, 0, r => (v, r) :: rest
  | q :: rest, i + 1, r => q :: modifyRoute rest i r

/-- The route at fleet index `i`. -/
def nthRoute (rs : Routes) (i : ℕ) : Route := (rs.getD i default).2

/-- The vehicle at fleet index `i`. -/
def nthVehiculo (rs : Routes) (i : ℕ) : Vehiculo := (rs.getD i default).1

/-- The body of the greedy's `for pedido in pedidos_ordenados` loop
(lines 201-255).  `none` models the `ValueError` of `max()` over an empty
fleet.  The code's `candidate_found and best_insertion` test is equivalent to
`best_insertion` being set, since both are set together (lines 237-240). -/
def greedy_step (dist : Dist) (vehiculos : List Vehiculo) (sol : Sol) (pedido : Pedido) :
    Option Sol :=
  match maxCap vehiculos with
  | none => none
  | some max_cap =>
    if pedido.peso_kg > max_cap then
      some { sol with unassigned :=
        sol.unassigned ++ [⟨pedido, .pesoExcesivo pedido.peso_kg max_cap⟩] }
    else
      match (scanVehicles dist pedido sol.routes.enum ⟨⊤, none⟩).bestIns with
      | some (vIdx, idx) =>
          some { sol with routes := insertIntoRoute sol.routes vIdx idx pedido }
      | none =>
          some { sol with unassigned := sol.unassigned ++ [⟨pedido, .noFactible⟩] }

/-- The greedy's main loop over the sorted orders. -/
def greedy_loop (dist : Dist) (vehiculos : List Vehiculo) : List Pedido → Sol → Option Sol
  | [], sol => some sol
  | p :: rest, sol =>
      match greedy_step dist vehiculos sol p with
      | none => none
      | some sol' => greedy_loop dist vehiculos rest sol'

/-- `solve_vrp_greedy(vehiculos, pedidos)` (lines 187-265): sort, start from
`{v.id: [] for v in vehiculos}`, insert each order at its cheapest feasible
placement or record it unassigned. -/
def solve_vrp_greedy (dist : Dist) (vehiculos : List Vehiculo) (pedidos : List Pedido) :
    Option Sol :=
  greedy_loop dist vehiculos (sortPedidos pedidos) ⟨vehiculos.map (fun v => (v, [])), []⟩

/-! ## Simulated annealing (src/algoritmo.py lines 268-424,
`solve_vrp_simulated_annealing`) -/

/-- One iteration's random draws.  Each field stands for one of the
`random.choice` / `random.randint` / `random.sample` indices the iteration
may read (an unused field is simply ignored, as the corresponding draw never
happens); `r` is the `random.random()` of the Metropolis test.  Indices are
read modulo the size of the sampled range, so quantifying over choices
covers every possible run. -/
structure SAChoice where
  move : ℕ
  v1 : ℕ
  un : ℕ
  vt : ℕ
  v2 : ℕ
  i1 : ℕ
  i2 : ℕ
  posIns : ℕ
  r : ℚ
deriving DecidableEq, Repr

inductive MoveType where
  | swap_inter : MoveType
  | move_inter : MoveType
  | swap_intra : MoveType
  | insert_unassigned : MoveType
deriving DecidableEq, Repr

/-- `random.choice(l)` driven by oracle index `n`: `none` models the
`IndexError` on an empty sequence. -/
def pick {α : Type} (l : List α) (n : ℕ) : Option α := l.get? (n % l.length)

/-- The position scan of the `insert_unassigned` move (lines 326-337):
try every position, keep the cheapest feasible one (`best_pos = -1` sentinel
is `none`). -/
def bestInsertPos (dist : Dist) (veh : Vehiculo) (r_target : Route) (p_un : Pedido) :
    List ℕ → Option ℕ × WithTop ℚ → Option ℕ × WithTop ℚ
  | [], acc => acc
  | pos :: rest, acc =>
      let temp_r := r_target.insertIdx pos p_un
      let cost := calculate_route_cost dist veh temp_r
      let acc' :=
        if cost ≠ ⊤ then
          if cost < acc.2 then (some pos, cost) else acc
        else acc
      bestInsertPos dist veh r_target p_un rest acc'

/-- The Metropolis acceptance test of line 403,
`delta < 0 or random.random() < math.exp(-delta / temp)`, with Python float
semantics at the sentinels (`delta = new_cost - current_cost`):
* both costs `inf`: `delta = nan`, both comparisons are false;
* `new_cost = inf` only: `delta = inf`, `inf < 0` is false and
  `math.exp(-inf) = 0.0`, so the test is `r < 0`;
* `current_cost = inf` only: `delta = -inf < 0`, accepted;
* both finite: exactly the code's test, with `expFn` standing for the finite
  values of `math.exp`. -/
def acceptMove (new_cost current_cost : WithTop ℚ) (temp r : ℚ) (expFn : ℚ → ℚ) : Bool :=
  if new_cost = ⊤ then
    if current_cost = ⊤ then false else decide (r < 0)
  else if current_cost = ⊤ then true
  else
    let delta := new_cost.untop' 0 - current_cost.untop' 0
    decide (delta < 0) || decide (r < expFn (-delta / temp))

/-- The optimizer's mutable state across iterations (lines 282-287):
deep copies are value copies here. -/
structure SAState where
  current : Sol
  current_cost : WithTop ℚ
  best : Sol
  best_cost : WithTop ℚ
  temp : ℚ
deriving DecidableEq, Repr

/-- Apply the drawn move to the iteration's working copy (lines 309-394),
returning the mutated routes and unassigned list and the `moved` flag.
`i1` is the index of `v1_id = random.choice(v_ids)` and `route1` its route. -/
def applyMove (dist : Dist) (c : SAChoice) (routes : Routes) (unas : List Unassigned)
    (i1 : ℕ) : MoveType → Routes × List Unassigned × Bool
  | .insert_unassigned =>
      if unas = [] then (routes, unas, false)
      else
        let idx_un := c.un % unas.length
        let p_un := (unas.getD idx_un default).pedido
        let vt := c.vt % routes.length
        let r_target := nthRoute routes vt
        let veh_target := nthVehiculo routes vt
        let scan := bestInsertPos dist veh_target r_target p_un
          (List.range (r_target.length + 1)) (none, ⊤)
        match scan.1 with
        | some best_pos =>
            (insertIntoRoute routes vt best_pos p_un, unas.eraseIdx idx_un, true)
        | none => (routes, unas, false)
  | .swap_inter =>
      if 1 < routes.length then
        let k := c.v2 % (routes.length - 1)
        let i2v := if k < i1 then k else k + 1
        let route1 := nthRoute routes i1
        let route2 := nthRoute routes i2v
        if route1 ≠ [] ∧ route2 ≠ [] then
          let idx1 := c.i1 % route1.length
          let idx2 := c.i2 % route2.length
          let p1 := route1.getD idx1 default
          let p2 := route2.getD idx2 default
          let route1' := route1.set idx1 p2
          let route2' := route2.set idx2 p1
          let routes' := modifyRoute (modifyRoute routes i1 route1') i2v route2'
          let c1 := calculate_route_cost dist (nthVehiculo routes i1) route1'
          let c2 := calculate_route_cost dist (nthVehiculo routes i2v) route2'
          (routes', unas, decide (c1 ≠ ⊤) && decide (c2 ≠ ⊤))
        else (routes, unas, false)
      else (routes, unas, false)
  | .move_inter =>
      if 1 < routes.length then
        let k := c.v2 % (routes.length - 1)
        let i2v := if k < i1 then k else k + 1
        let route1 := nthRoute routes i1
        let route2 := nthRoute routes i2v
        if route1 ≠ [] then
          let idx1 := c.i1 % route1.length
          let p_move := route1.getD idx1 default
          let route1' := route1.eraseIdx idx1
          let insert_idx := c.posIns % (route2.length + 1)
          let route2' := route2.insertIdx insert_idx p_move
          let routes' := modifyRoute (modifyRoute routes i1 route1') i2v route2'
          let c1 := calculate_route_cost dist (nthVehiculo routes i1) route1'
          let c2 := calculate_route_cost dist (nthVehiculo routes i2v) route2'
          (routes', unas, decide (c1 ≠ ⊤) && decide (c2 ≠ ⊤))
        else (routes, unas, false)
      else (routes, unas, false)
  | .swap_intra =>
      let route1 := nthRoute routes i1
      if 1 < route1.length then
        let idx1 := c.i1 % route1.length
        let k := c.i2 % (route1.length - 1)
        let idx2 := if k < idx1 then k else k + 1
        let p1 := route1.getD idx1 default
        let p2 := route1.getD idx2 default
        let route1' := (route1.set idx1 p2).set idx2 p1
        let routes' := modifyRoute routes i1 route1'
        let c1 := calculate_route_cost dist (nthVehiculo routes i1) route1'
        (routes', unas, decide (c1 ≠ ⊤))
      else (routes, unas, false)

/-- One iteration of the annealing loop (lines 289-414).  The working copy is
a value copy; an unmoved or rejected candidate leaves `current` untouched;
`best` is re-snapshotted only on strict improvement of the committed cost;
the temperature cools in every iteration.  `none` models the `IndexError` of
`random.choice(v_ids)` on an empty fleet. -/
def sa_step (dist : Dist) (expFn : ℚ → ℚ) (cooling_rate : ℚ) (st : SAState) (c : SAChoice) :
    Option SAState :=
  let routes := st.current.routes
  let unas := st.current.unassigned
  let options : List MoveType :=
    [.swap_inter, .move_inter, .swap_intra] ++
      (if unas ≠ [] then [.insert_unassigned, .insert_unassigned] else [])
  match pick options c.move with
  | none => none
  | some move_type =>
    match pick (List.range routes.length) c.v1 with
    | none => none
    | some i1 =>
      let cand := applyMove dist c routes unas i1 move_type
      if cand.2.2 then
        let new_cost := calculate_global_cost dist cand.1 cand.2.1
        if acceptMove new_cost st.current_cost st.temp c.r expFn then
          let cur' : Sol := ⟨cand.1, cand.2.1⟩
          if new_cost < st.best_cost then
            some ⟨cur', new_cost, cur', new_cost, st.temp * cooling_rate⟩
          else
            some ⟨cur', new_cost, st.best, st.best_cost, st.temp * cooling_rate⟩
        else
          some ⟨st.current, st.current_cost, st.best, st.best_cost, st.temp * cooling_rate⟩
      else
        some ⟨st.current, st.current_cost, st.best, st.best_cost, st.temp * cooling_rate⟩

/-- The `for i in range(max_iterations)` loop: one `SAChoice` per iteration. -/
def sa_loop (dist : Dist) (expFn : ℚ → ℚ) (cooling_rate : ℚ) :
    List SAChoice → SAState → Option SAState
  | [], st => some st
  | c :: rest, st =>
      match sa_step dist expFn cooling_rate st c with
      | none => none
      | some st' => sa_loop dist expFn cooling_rate rest st'

/-- The state after line 287: greedy solution as `current` and `best`,
its global cost as both costs, `temp = initial_temp`. -/
def sa_init (dist : Dist) (g : Sol) (initial_temp : ℚ) : SAState :=
  ⟨g, calculate_global_cost dist g.routes g.unassigned, g,
   calculate_global_cost dist g.routes g.unassigned, initial_temp⟩

/-- `solve_vrp_simulated_annealing(vehiculos, pedidos, initial_temp,
cooling_rate, max_iterations)`: greedy initial solution, then the annealing
loop (the run's `max_iterations` is the length of the supplied choice list),
returning the best-seen snapshot. -/
def solve_vrp_simulated_annealing (dist : Dist) (expFn : ℚ → ℚ)
    (vehiculos : List Vehiculo) (pedidos : List Pedido)
    (initial_temp cooling_rate : ℚ) (choices : List SAChoice) : Option Sol :=
  match solve_vrp_greedy dist vehiculos pedidos with
  | none => none
  | some greedy_sol =>
      match sa_loop dist expFn cooling_rate choices (sa_init dist greedy_sol initial_temp) with
      | none => none
      | some stFin => some stFin.best

/-! ## Output layer time recomputation (src/main.py lines 162-228, `enrutar`) -/

/-- The per-stop loop of `enrutar`'s response builder (main.py lines 173-209):
travel at `VELOCIDAD_PROMEDIO_KMH`, wait for the window to open, record
`hora_estimada_entrega`, then the literal 10-minute service time of line 209.
Returns the recorded stop times (minutes of day) and the final clock. -/
def mainSimLoop (dist : Dist) (t lat lon : ℚ) : List Pedido → List ℚ × ℚ
  | [] => ([], t)
  | pedido :: rest =>
      let dist_tramo := dist lat lon pedido.latitud_destino pedido.longitud_destino
      let t1 := t + (dist_tramo / VELOCIDAD_PROMEDIO_KMH) * 60
      let t_iv : ℚ := parseHHMM pedido.ventana_inicio
      let t2 := if t1 < t_iv then t_iv else t1
      let rec_rest := mainSimLoop dist (t2 + 10) pedido.latitud_destino pedido.longitud_destino rest
      (t2 :: rec_rest.1, rec_rest.2)

/-- The output layer's whole-route simulation from 08:00 at the vehicle's
origin (main.py lines 163-214). -/
def mainSim (dist : Dist) (v : Vehiculo) (route : Route) : List ℚ × ℚ :=
  mainSimLoop dist HORA_INICIO_MIN v.latitud_origen v.longitud_origen route

/-- `tiempo_total_horas`: `(tiempo_actual - tiempo_inicio).total_seconds()/3600`
(main.py line 214). -/
def mainRouteHours (dist : Dist) (v : Vehiculo) (route : Route) : ℚ :=
  ((mainSim dist v route).2 - HORA_INICIO_MIN) / 60

/-- The clock trace of the evaluator's time simulation: the arrival time at
each stop after the wait step (the value `calculate_route_metrics` checks
against the window close, lines 83-108 of algoritmo.py) and the final clock,
following exactly the clock updates of `routeMetricsLoop`. -/
def evalSimLoop (dist : Dist) (t lat lon : ℚ) : List Pedido → List ℚ × ℚ
  | [] => ([], t)
  | pedido :: rest =>
      let d := dist lat lon pedido.latitud_destino pedido.longitud_destino
      let t1 := t + (d / VELOCIDAD_PROMEDIO_KMH) * 60
      let t_inicio : ℚ := parseHHMM pedido.ventana_inicio
      let t2 := if t1 < t_inicio then t_inicio else t1
      let rec_rest := evalSimLoop dist (t2 + TIEMPO_SERVICIO_MINUTOS)
        pedido.latitud_destino pedido.longitud_destino rest
      (t2 :: rec_rest.1, rec_rest.2)

/-- The evaluator's simulation from the 08:00 start at the vehicle's origin. -/
def evalSim (dist : Dist) (v : Vehiculo) (route : Route) : List ℚ × ℚ :=
  evalSimLoop dist HORA_INICIO_MIN v.latitud_origen v.longitud_origen route

/-- The evaluator's total route duration in hours (the `total_hours` of
algoritmo.py line 114). -/
def evalRouteHours (dist : Dist) (v : Vehiculo) (route : Route) : ℚ :=
  ((evalSim dist v route).2 - HORA_INICIO_MIN) / 60

/-- `tiempo_actual.strftime("%H:%M")` on a minute-of-day clock: the printed
(hour, minute) pair.  Two equal clocks format to the same string, so equality
of these pairs is equality of the `estimated_delivery_time` strings. -/
def fmtHHMM (t : ℚ) : ℕ × ℕ := (((⌊t⌋ / 60) % 24).toNat, (⌊t⌋ % 60).toNat)

/-! ## Geodesic primitive (src/algoritmo.py lines 22-53, `haversine_distance`) -/

/-- The haversine great-circle distance over ℝ: `math.radians` is
multiplication by π/180, Earth radius 6371.0 km. -/
noncomputable def haversine_distance (lat1 lon1 lat2 lon2 : ℝ) : ℝ :=
  let R : ℝ := 6371
  let phi1 := lat1 * (Real.pi / 180)
  let phi2 := lat2 * (Real.pi / 180)
  let lambda1 := lon1 * (Real.pi / 180)
  let lambda2 := lon2 * (Real.pi / 180)
  let a := Real.sin ((phi2 - phi1) / 2) ^ 2 +
    Real.cos phi1 * Real.cos phi2 * Real.sin ((lambda2 - lambda1) / 2) ^ 2
  let c := 2 * Real.arcsin (Real.sqrt a)
  R * c

/-! ## Spec-side formulations (used only to compare against the code) -/

/-- The global cost as §4.3 of the spec words it: `⊤` when some route is
infeasible, otherwise the sum over routes of
`W_DIST·distance + W_WAIT·(wait/60) + W_CAP·(load/capacity)²` plus
`W_UNASSIGNED·priority²` per unassigned order (no `capacity > 0` guard:
the spec's formula divides by the capacity directly). -/
def spec_global_cost (dist : Dist) (routes : Routes) (unassigned : List Unassigned) :
    WithTop ℚ :=
  if routes.any (fun p => !(calculate_route_metrics dist p.1 p.2).is_feasible) then ⊤
  else
    (((routes.map (fun p =>
        let m := calculate_route_metrics dist p.1 p.2
        W_DIST * m.distance_km + W_WAIT * (m.wait_minutes / 60) +
          W_CAP * (m.load_kg / p.1.capacidad_kg) ^ 2)).sum +
      (unassigned.map (fun u => W_UNASSIGNED * ((u.pedido.prioridad : ℚ)) ^ 2)).sum : ℚ) :
        WithTop ℚ)

/-- A contract-valid zero-padded "HH:MM" string: five characters, a colon in
the middle, decimal digits elsewhere, hours below 24 and minutes below 60. -/
def ValidHHMM : List Char → Prop
  | [h1, h2, c, m1, m2] =>
      c = ':' ∧ (48 ≤ h1.toNat ∧ h1.toNat ≤ 57) ∧ (48 ≤ h2.toNat ∧ h2.toNat ≤ 57) ∧
      (48 ≤ m1.toNat ∧ m1.toNat ≤ 57) ∧ (48 ≤ m2.toNat ∧ m2.toNat ≤ 57) ∧
      10 * digitVal h1 + digitVal h2 < 24 ∧ 10 * digitVal m1 + digitVal m2 < 60
  | _ => False

instance : ∀ s, Decidable (ValidHHMM s) := by
  intro s
  match s with
  | [h1, h2, c, m1, m2] => exact inferInstanceAs (Decidable (_ ∧ _))
  | [] => exact inferInstanceAs (Decidable False)
  | [_] => exact inferInstanceAs (Decidable False)
  | [_, _] => exact inferInstanceAs (Decidable False)
  | [_, _, _] => exact inferInstanceAs (Decidable False)
  | [_, _, _, _] => exact inferInstanceAs (Decidable False)
  | _ :: _ :: _ :: _ :: _ :: _ :: _ => exact inferInstanceAs (Decidable False)

/-- The greedy's sort key `(-x.prioridad, x.ventana_inicio)`. -/
def keyOf (p : Pedido) : ℤ × List Char := (-p.prioridad, p.ventana_inicio)

/-- The multiset of orders carried by the routes of a solution. -/
def routesM (rs : Routes) : Multiset Pedido :=
  (rs.map (fun p => ((p.2 : List Pedido) : Multiset Pedido))).sum

/-- The multiset of all orders of a solution: those in routes plus the
unassigned ones. -/
def solM (s : Sol) : Multiset Pedido :=
  routesM s.routes + ((s.unassigned.map Unassigned.pedido : List Pedido) : Multiset Pedido)

/-! ## Shared lemmas about the evaluator -/

/-- One unfolding step of the simulation loop on a nonempty route, the inner
lets resolved. -/
lemma routeMetricsLoop_cons (dist : Dist) (m : RouteMetrics) (t lat lon : ℚ)
    (p : Pedido) (rest : List Pedido) :
    routeMetricsLoop dist m t lat lon (p :: rest) =
      (let d := dist lat lon p.latitud_destino p.longitud_destino
       let m1 := { m with distance_km := m.distance_km + d }
       let t1 := t + (d / VELOCIDAD_PROMEDIO_KMH) * 60
       let t_inicio : ℚ := parseHHMM p.ventana_inicio
       let t_fin : ℚ := parseHHMM p.ventana_fin
       let m2 := if t1 < t_inicio then
                   { m1 with wait_minutes := m1.wait_minutes + (t_inicio - t1) }
                 else m1
       let t2 := if t1 < t_inicio then t_inicio else t1
       if t2 > t_fin then
         { m2 with lateness_count := m2.lateness_count + 1,
                   is_feasible := false,
                   rejection_reason := .llegadaTardia p.id }
       else
         routeMetricsLoop dist m2 (t2 + TIEMPO_SERVICIO_MINUTOS)
           p.latitud_destino p.longitud_destino rest) := rfl

/-- The time-simulation loop never touches `load_kg`. -/
lemma routeMetricsLoop_load (dist : Dist) :
    ∀ (route : List Pedido) (m : RouteMetrics) (t lat lon : ℚ),
      (routeMetricsLoop dist m t lat lon route).load_kg = m.load_kg := by
  intro route
  induction route with
  | nil =>
      intro m t lat lon
      simp only [routeMetricsLoop]
      split <;> rfl
  | cons p rest ih =>
      intro m t lat lon
      rw [routeMetricsLoop_cons]
      simp only []
      split <;> split
      · rfl
      · rw [ih]
      · rfl
      · rw [ih]

/-- The loop increments `lateness_count` at most once: it returns at the
first late stop. -/
lemma routeMetricsLoop_lateness (dist : Dist) :
    ∀ (route : List Pedido) (m : RouteMetrics) (t lat lon : ℚ),
      (routeMetricsLoop dist m t lat lon route).lateness_count ≤ m.lateness_count + 1 := by
  intro route
  induction route with
  | nil =>
      intro m t lat lon
      simp only [routeMetricsLoop]
      split
      · exact Nat.le_succ _
      · exact Nat.le_succ _
  | cons p rest ih =>
      intro m t lat lon
      rw [routeMetricsLoop_cons]
      simp only []
      split <;> split
      · exact Nat.le_refl _
      · exact ih _ _ _ _
      · exact Nat.le_refl _
      · exact ih _ _ _ _

/-- The loop only ever turns `is_feasible` off. -/
lemma routeMetricsLoop_feasible_mono (dist : Dist) :
    ∀ (route : List Pedido) (m : RouteMetrics) (t lat lon : ℚ),
      (routeMetricsLoop dist m t lat lon route).is_feasible = true → m.is_feasible = true := by
  intro route
  induction route with
  | nil =>
      intro m t lat lon h
      simp only [routeMetricsLoop] at h
      revert h
      split
      · intro h; exact absurd h (by simp)
      · intro h; exact h
  | cons p rest ih =>
      intro m t lat lon h
      rw [routeMetricsLoop_cons] at h
      simp only [] at h
      revert h
      split <;> split
      · intro h; exact absurd h (by simp)
      · intro h; simpa using ih _ _ _ _ h
      · intro h; exact absurd h (by simp)
      · intro h; simpa using ih _ _ _ _ h

/-- The metrics' `load_kg` is always the route's total weight. -/
lemma metrics_load (dist : Dist) (vehicle : Vehiculo) (route : List Pedido) :
    (calculate_route_metrics dist vehicle route).load_kg = sumPeso route := by
  simp only [calculate_route_metrics]
  split
  · rfl
  · rw [routeMetricsLoop_load]

/-- A feasible route's total weight is within capacity. -/
lemma feasible_load_le (dist : Dist) (vehicle : Vehiculo) (route : List Pedido)
    (h : (calculate_route_metrics dist vehicle route).is_feasible = true) :
    sumPeso route ≤ vehicle.capacidad_kg := by
  by_contra hgt
  push_neg at hgt
  simp only [calculate_route_metrics] at h
  rw [if_pos hgt] at h
  simp at h

/-- `calculate_route_cost` is the `inf` sentinel exactly on infeasible routes. -/
lemma route_cost_ne_top_iff (dist : Dist) (vehicle : Vehiculo) (route : Route) :
    calculate_route_cost dist vehicle route ≠ ⊤ ↔
      (calculate_route_metrics dist vehicle route).is_feasible = true := by
  simp only [calculate_route_cost]
  constructor
  · intro h
    by_contra hf
    rw [Bool.not_eq_true] at hf
    rw [if_pos hf] at h
    exact h rfl
  · intro h
    rw [if_neg (by simp [h])]
    exact WithTop.coe_ne_top

/-- `routesCost` is finite exactly when every route is feasible. -/
lemma routesCost_ne_top_iff (dist : Dist) :
    ∀ rs : Routes, routesCost dist rs ≠ ⊤ ↔
      ∀ p ∈ rs, (calculate_route_metrics dist p.1 p.2).is_feasible = true := by
  intro rs
  induction rs with
  | nil => simp [routesCost]
  | cons q rest ih =>
      obtain ⟨veh, route⟩ := q
      simp only [routesCost]
      by_cases hf : (calculate_route_metrics dist veh route).is_feasible = false
      · rw [if_pos hf]
        simp only [ne_eq, not_true_eq_false, false_iff]
        intro hall
        have := hall (veh, route) (List.mem_cons_self _ _)
        rw [this] at hf
        exact Bool.noConfusion hf
      · rw [if_neg hf]
        rw [Bool.not_eq_false] at hf
        constructor
        · intro h p hp
          rcases List.mem_cons.mp hp with h1 | h2
          · rw [h1]; exact hf
          · exact (ih.mp (fun hc => h (by rw [WithTop.add_eq_top]; right; exact hc))) p h2
        · intro h hc
          rw [WithTop.add_eq_top] at hc
          rcases hc with hc | hc
          · exact WithTop.coe_ne_top hc
          · exact (ih.mpr (fun p hp => h p (List.mem_cons_of_mem _ hp))) hc

/-- The global cost is finite exactly when every route is feasible. -/
lemma global_cost_ne_top_iff (dist : Dist) (rs : Routes) (unas : List Unassigned) :
    calculate_global_cost dist rs unas ≠ ⊤ ↔
      ∀ p ∈ rs, (calculate_route_metrics dist p.1 p.2).is_feasible = true := by
  unfold calculate_global_cost
  rw [← routesCost_ne_top_iff dist rs]
  constructor
  · intro h hc
    exact h (by rw [WithTop.add_eq_top]; left; exact hc)
  · intro h hc
    rw [WithTop.add_eq_top] at hc
    rcases hc with hc | hc
    · exact h hc
    · exact WithTop.coe_ne_top hc

/-! ## C6 — evaluator: load bookkeeping, capacity pre-check, lateness count -/

/-- C6: for every vehicle and route, `calculate_route_metrics` reports
`load_kg` equal to the route's total weight; when that total exceeds the
capacity it returns immediately with `is_feasible = false`, a capacity
rejection reason and all simulation metrics still zero; and
`lateness_count` is always 0 or 1 (the evaluator returns at the first late
stop). -/
theorem c6_metrics_load_capacity_lateness (dist : Dist) (vehicle : Vehiculo)
    (route : List Pedido) :
    (calculate_route_metrics dist vehicle route).load_kg = sumPeso route ∧
    (sumPeso route > vehicle.capacidad_kg →
      calculate_route_metrics dist vehicle route =
        { distance_km := 0, wait_minutes := 0, load_kg := sumPeso route,
          overtime_hours := 0, lateness_count := 0, is_feasible := false,
          rejection_reason := .capacidadExcedida (sumPeso route) vehicle.capacidad_kg }) ∧
    (calculate_route_metrics dist vehicle route).lateness_count ≤ 1 := by
  refine ⟨metrics_load dist vehicle route, ?_, ?_⟩
  · intro hgt
    simp only [calculate_route_metrics]
    rw [if_pos hgt]
  · simp only [calculate_route_metrics]
    split
    · exact Nat.zero_le 1
    · exact routeMetricsLoop_lateness dist route _ _ _ _

/-! ## C9 — haversine: symmetry, self-distance zero, nonnegativity -/

/-- `haversine_distance` with its lets inlined. -/
lemma haversine_eq (lat1 lon1 lat2 lon2 : ℝ) :
    haversine_distance lat1 lon1 lat2 lon2 =
      6371 * (2 * Real.arcsin (Real.sqrt
        (Real.sin ((lat2 * (Real.pi / 180) - lat1 * (Real.pi / 180)) / 2) ^ 2 +
         Real.cos (lat1 * (Real.pi / 180)) * Real.cos (lat2 * (Real.pi / 180)) *
           Real.sin ((lon2 * (Real.pi / 180) - lon1 * (Real.pi / 180)) / 2) ^ 2))) := rfl

/-- Squared sine of the half-difference is symmetric in its arguments. -/
lemma sin_half_sub_sq_comm (x y : ℝ) :
    Real.sin ((x - y) / 2) ^ 2 = Real.sin ((y - x) / 2) ^ 2 := by
  rw [show (x - y) / 2 = -((y - x) / 2) by ring, Real.sin_neg]
  ring

/-- C9: the haversine distance is symmetric, the distance from a point to
itself is 0, and every distance is non-negative. -/
theorem c9_haversine_symm_self_nonneg :
    (∀ lat1 lon1 lat2 lon2 : ℝ,
        haversine_distance lat1 lon1 lat2 lon2 = haversine_distance lat2 lon2 lat1 lon1) ∧
    (∀ lat lon : ℝ, haversine_distance lat lon lat lon = 0) ∧
    (∀ lat1 lon1 lat2 lon2 : ℝ, 0 ≤ haversine_distance lat1 lon1 lat2 lon2) := by
  refine ⟨?_, ?_, ?_⟩
  · intro lat1 lon1 lat2 lon2
    rw [haversine_eq, haversine_eq]
    rw [sin_half_sub_sq_comm (lat2 * (Real.pi / 180)) (lat1 * (Real.pi / 180)),
        sin_half_sub_sq_comm (lon2 * (Real.pi / 180)) (lon1 * (Real.pi / 180)),
        mul_comm (Real.cos (lat1 * (Real.pi / 180))) (Real.cos (lat2 * (Real.pi / 180)))]
  · intro lat lon
    rw [haversine_eq]
    simp
  · intro lat1 lon1 lat2 lon2
    rw [haversine_eq]
    refine mul_nonneg (by norm_num) (mul_nonneg (by norm_num) ?_)
    exact Real.arcsin_nonneg.mpr (Real.sqrt_nonneg _)

/-! ## C5 — the global cost function computes the spec's formula -/

lemma unassignedCost_eq_sum (unas : List Unassigned) :
    unassignedCost unas =
      (unas.map (fun u => W_UNASSIGNED * ((u.pedido.prioridad : ℚ)) ^ 2)).sum := by
  induction unas with
  | nil => rfl
  | cons u rest ih => simp only [unassignedCost, List.map_cons, List.sum_cons, ih]

lemma routesCost_eq_spec (dist : Dist) :
    ∀ rs : Routes, (∀ p ∈ rs, 0 < p.1.capacidad_kg) →
      routesCost dist rs =
        if rs.any (fun p => !(calculate_route_metrics dist p.1 p.2).is_feasible) then ⊤
        else (((rs.map (fun p =>
            let m := calculate_route_metrics dist p.1 p.2
            W_DIST * m.distance_km + W_WAIT * (m.wait_minutes / 60) +
              W_CAP * (m.load_kg / p.1.capacidad_kg) ^ 2)).sum : ℚ) : WithTop ℚ) := by
  intro rs
  induction rs with
  | nil => simp [routesCost]
  | cons q rest ih =>
      intro hcap
      obtain ⟨veh, route⟩ := q
      simp only [routesCost]
      by_cases hf : (calculate_route_metrics dist veh route).is_feasible = false
      · rw [if_pos hf]
        rw [if_pos]
        simp only [List.any_cons]
        rw [hf]
        simp
      · rw [if_neg hf]
        rw [Bool.not_eq_false] at hf
        have hcap0 : 0 < veh.capacidad_kg := hcap (veh, route) (List.mem_cons_self _ _)
        rw [ih (fun p hp => hcap p (List.mem_cons_of_mem _ hp))]
        simp only [List.any_cons, hf, Bool.not_true, Bool.false_or]
        by_cases hrest : rest.any (fun p => !(calculate_route_metrics dist p.1 p.2).is_feasible)
        · rw [if_pos hrest, if_pos hrest]
          simp
        · rw [if_neg hrest, if_neg hrest]
          rw [if_pos hcap0]
          rw [← WithTop.coe_add, List.map_cons, List.sum_cons]

/-- C5: `calculate_global_cost` is `+∞` exactly when some route is infeasible
per the evaluator, and otherwise equals the spec's formula: the sum over
routes of `W_DIST·distance + W_WAIT·(wait/60) + W_CAP·(load/capacity)²` plus
`W_UNASSIGNED·priority²` for each unassigned order (capacities are positive
by the input contract, so the code's `capacidad_kg > 0` guard coincides with
the spec's direct division). -/
theorem c5_global_cost_spec (dist : Dist) (routes : Routes) (unassigned : List Unassigned)
    (hcap : ∀ p ∈ routes, 0 < p.1.capacidad_kg) :
    calculate_global_cost dist routes unassigned = spec_global_cost dist routes unassigned := by
  unfold calculate_global_cost spec_global_cost
  rw [routesCost_eq_spec dist routes hcap, unassignedCost_eq_sum]
  by_cases hany : routes.any (fun p => !(calculate_route_metrics dist p.1 p.2).is_feasible)
  · rw [if_pos hany, if_pos hany]
    simp
  · rw [if_neg hany, if_neg hany]
    rw [← WithTop.coe_add]

/-! ## C7 — the greedy's order sort -/

/-- Normal form of the string comparison on cons cells. -/
lemma strLt_cons (c d : Char) (cs ds : List Char) :
    strLt (c :: cs) (d :: ds) =
      (decide (c.toNat < d.toNat) || (decide (c.toNat = d.toNat) && strLt cs ds)) := by
  simp only [strLt]
  by_cases h1 : c.toNat < d.toNat
  · simp [h1]
  · by_cases h2 : d.toNat < c.toNat
    · have h3 : ¬ c.toNat = d.toNat := by omega
      rw [if_neg h1, if_pos h2]
      simp [h1, h3]
    · have h3 : c.toNat = d.toNat := by omega
      rw [if_neg h1, if_neg h2]
      simp [h1, h3]

lemma strLt_irrefl : ∀ s, strLt s s = false := by
  intro s
  induction s with
  | nil => rfl
  | cons c cs ih => simp [strLt_cons, ih]

lemma strLt_asymm : ∀ s t, strLt s t = true → strLt t s = false := by
  intro s
  induction s with
  | nil =>
      intro t h
      cases t with
      | nil => simpa [strLt] using h
      | cons d ds => rfl
  | cons c cs ih =>
      intro t h
      cases t with
      | nil => simpa [strLt] using h
      | cons d ds =>
          simp only [strLt_cons, Bool.or_eq_true, Bool.and_eq_true, decide_eq_true_eq] at h
          simp only [strLt_cons, Bool.or_eq_false_iff, Bool.and_eq_false_iff]
          rcases h with h | ⟨heq, hrec⟩
          · constructor
            · simp only [decide_eq_false_iff_not]; omega
            · left; simp only [decide_eq_false_iff_not]; omega
          · constructor
            · simp only [decide_eq_false_iff_not]; omega
            · right; exact ih ds hrec

lemma strLt_trans : ∀ s t u, strLt s t = true → strLt t u = true → strLt s u = true := by
  intro s
  induction s with
  | nil =>
      intro t u h1 h2
      cases t with
      | nil => simpa [strLt] using h1
      | cons d ds =>
          cases u with
          | nil => simpa [strLt] using h2
          | cons e es => rfl
  | cons c cs ih =>
      intro t u h1 h2
      cases t with
      | nil => simpa [strLt] using h1
      | cons d ds =>
          cases u with
          | nil => simpa [strLt] using h2
          | cons e es =>
              simp only [strLt_cons, Bool.or_eq_true, Bool.and_eq_true, decide_eq_true_eq]
                at h1 h2 ⊢
              rcases h1 with h1 | ⟨h1e, h1r⟩
              · rcases h2 with h2 | ⟨h2e, h2r⟩
                · left; omega
                · left; omega
              · rcases h2 with h2 | ⟨h2e, h2r⟩
                · left; omega
                · right; exact ⟨by omega, ih ds es h1r h2r⟩

lemma strLt_eq_of_not : ∀ s t, strLt s t = false → strLt t s = false → s = t := by
  intro s
  induction s with
  | nil =>
      intro t h1 h2
      cases t with
      | nil => rfl
      | cons d ds => simp [strLt] at h1
  | cons c cs ih =>
      intro t h1 h2
      cases t with
      | nil => simp [strLt] at h2
      | cons d ds =>
          simp only [strLt_cons, Bool.or_eq_false_iff, Bool.and_eq_false_iff,
            decide_eq_false_iff_not] at h1 h2
          obtain ⟨h1a, h1b⟩ := h1
          obtain ⟨h2a, h2b⟩ := h2
          have hcd : c.toNat = d.toNat := by omega
          have hc : c = d := by
            have hlt1 : ¬ c < d := fun hx =>
              absurd (show c.toNat < d.toNat from hx) (by omega)
            have hlt2 : ¬ d < c := fun hx =>
              absurd (show d.toNat < c.toNat from hx) (by omega)
            exact le_antisymm (le_of_not_lt hlt2) (le_of_not_lt hlt1)
          subst hc
          rcases h1b with h1b | h1b
          · omega
          · rcases h2b with h2b | h2b
            · omega
            · rw [ih ds h1b h2b]

/-- Normal form of the key comparison. -/
lemma keyLt_eq (a b : Pedido) :
    keyLt a b =
      (decide (-a.prioridad < -b.prioridad) ||
        (decide (a.prioridad = b.prioridad) && strLt a.ventana_inicio b.ventana_inicio)) := by
  simp only [keyLt]
  by_cases h1 : -a.prioridad < -b.prioridad
  · simp [h1]
  · by_cases h2 : -b.prioridad < -a.prioridad
    · have h3 : ¬ a.prioridad = b.prioridad := by omega
      rw [if_neg h1, if_pos h2]
      simp [h1, h3]
    · have h3 : a.prioridad = b.prioridad := by omega
      rw [if_neg h1, if_neg h2]
      simp [h1, h3]

/-- `pedidosLe` is total: the key comparison is asymmetric. -/
lemma pedidosLe_total : ∀ a b : Pedido, (pedidosLe a b || pedidosLe b a) = true := by
  intro a b
  simp only [pedidosLe, Bool.or_eq_true, Bool.not_eq_true']
  by_cases h : keyLt b a = true
  · right
    simp only [keyLt_eq, Bool.or_eq_true, Bool.and_eq_true, decide_eq_true_eq] at h
    simp only [keyLt_eq, Bool.or_eq_false_iff, Bool.and_eq_false_iff,
      decide_eq_false_iff_not]
    rcases h with h | ⟨he, hr⟩
    · exact ⟨by omega, Or.inl (by omega)⟩
    · exact ⟨by omega, Or.inr (strLt_asymm _ _ hr)⟩
  · left
    exact Bool.not_eq_true _ ▸ (Bool.of_not_eq_true h)

/-- `pedidosLe` is transitive. -/
lemma pedidosLe_trans : ∀ a b c : Pedido,
    pedidosLe a b → pedidosLe b c → pedidosLe a c := by
  intro a b c h1 h2
  simp only [pedidosLe, Bool.not_eq_true'] at h1 h2 ⊢
  simp only [keyLt_eq, Bool.or_eq_false_iff, Bool.and_eq_false_iff,
    decide_eq_false_iff_not] at h1 h2 ⊢
  obtain ⟨h1a, h1b⟩ := h1
  obtain ⟨h2a, h2b⟩ := h2
  refine ⟨by omega, ?_⟩
  by_cases hpr : c.prioridad = a.prioridad
  · right
    have hba : b.prioridad = a.prioridad := by omega
    have hcb : c.prioridad = b.prioridad := by omega
    have hb1 : strLt b.ventana_inicio a.ventana_inicio = false := by
      rcases h1b with h | h
      · exact absurd hba h
      · exact h
    have hb2 : strLt c.ventana_inicio b.ventana_inicio = false := by
      rcases h2b with h | h
      · exact absurd hcb h
      · exact h
    by_cases hca : strLt c.ventana_inicio a.ventana_inicio = true
    · by_cases hbc : strLt b.ventana_inicio c.ventana_inicio = true
      · have := strLt_trans _ _ _ hbc hca
        rw [this] at hb1
        exact absurd hb1 (by simp)
      · have heq := strLt_eq_of_not _ _ hb2 (by
          rw [Bool.not_eq_true] at hbc
          exact hbc)
        rw [heq] at hca
        rw [hca] at hb1
        exact absurd hb1 (by simp)
    · rw [Bool.not_eq_true] at hca
      exact hca
  · left; exact hpr

set_option maxHeartbeats 1000000 in
/-- Core of the zero-padding argument, on explicit digit characters. -/
lemma strLt_digits (a1 a2 a3 a4 b1 b2 b3 b4 : Char)
    (ha1 : 48 ≤ a1.toNat ∧ a1.toNat ≤ 57) (ha2 : 48 ≤ a2.toNat ∧ a2.toNat ≤ 57)
    (ha3 : 48 ≤ a3.toNat ∧ a3.toNat ≤ 57) (ha4 : 48 ≤ a4.toNat ∧ a4.toNat ≤ 57)
    (hb1 : 48 ≤ b1.toNat ∧ b1.toNat ≤ 57) (hb2 : 48 ≤ b2.toNat ∧ b2.toNat ≤ 57)
    (hb3 : 48 ≤ b3.toNat ∧ b3.toNat ≤ 57) (hb4 : 48 ≤ b4.toNat ∧ b4.toNat ≤ 57)
    (hlt : (10 * digitVal a1 + digitVal a2) * 60 + (10 * digitVal a3 + digitVal a4)
         < (10 * digitVal b1 + digitVal b2) * 60 + (10 * digitVal b3 + digitVal b4))
    (ham : 10 * digitVal a3 + digitVal a4 < 60)
    (hbm : 10 * digitVal b3 + digitVal b4 < 60) :
    strLt [a1, a2, ':', a3, a4] [b1, b2, ':', b3, b4] = true := by
  simp only [digitVal] at hlt ham hbm
  simp only [strLt]
  split_ifs <;> first | rfl | omega

/-- For two contract-valid windows, an earlier minute-of-day means a
lexicographically smaller string: zero-padded "HH:MM" compares
chronologically. -/
lemma strLt_of_parse_lt : ∀ s t : List Char, ValidHHMM s → ValidHHMM t →
    parseHHMM s < parseHHMM t → strLt s t = true := by
  intro s t hs ht hlt
  match s, t with
  | [a1, a2, ca, a3, a4], [b1, b2, cb, b3, b4] =>
    obtain ⟨hca, ha1, ha2, ha3, ha4, hah, ham⟩ := hs
    obtain ⟨hcb, hb1, hb2, hb3, hb4, hbh, hbm⟩ := ht
    subst hca
    subst hcb
    simp only [parseHHMM] at hlt
    exact strLt_digits a1 a2 a3 a4 b1 b2 b3 b4 ha1 ha2 ha3 ha4 hb1 hb2 hb3 hb4 hlt ham hbm
  | [], t => exact hs.elim
  | [_], t => exact hs.elim
  | [_, _], t => exact hs.elim
  | [_, _, _], t => exact hs.elim
  | [_, _, _, _], t => exact hs.elim
  | _ :: _ :: _ :: _ :: _ :: _ :: _, t => exact hs.elim
  | s, [] => exact ht.elim
  | s, [_] => exact ht.elim
  | s, [_, _] => exact ht.elim
  | s, [_, _, _] => exact ht.elim
  | s, [_, _, _, _] => exact ht.elim
  | s, _ :: _ :: _ :: _ :: _ :: _ :: _ => exact ht.elim

/-- C7: the greedy processes the orders sorted by priority descending and, on
equal priority, by window-open ascending (given the contract's zero-padded
"HH:MM" strings, since the code compares the strings lexicographically), as a
permutation of the input, with ties broken stably (any two orders with equal
sort key keep their input order). -/
theorem c7_greedy_sort (pedidos : List Pedido)
    (hval : ∀ p ∈ pedidos, ValidHHMM p.ventana_inicio) :
    (sortPedidos pedidos).Perm pedidos ∧
    (sortPedidos pedidos).Pairwise (fun a b =>
      b.prioridad < a.prioridad ∨
        (a.prioridad = b.prioridad ∧
          parseHHMM a.ventana_inicio ≤ parseHHMM b.ventana_inicio)) ∧
    (∀ a b : Pedido, keyOf a = keyOf b → List.Sublist [a, b] pedidos → List.Sublist [a, b] (sortPedidos pedidos)) := by
  refine ⟨List.mergeSort_perm pedidos pedidosLe, ?_, ?_⟩
  · have hsorted := List.sorted_mergeSort
      (fun a b c h1 h2 => pedidosLe_trans a b c h1 h2)
      (fun a b => pedidosLe_total a b) pedidos
    refine List.Pairwise.imp_of_mem ?_ hsorted
    intro a b ha hb hle
    have hva : ValidHHMM a.ventana_inicio :=
      hval a (List.mem_mergeSort.mp ha)
    have hvb : ValidHHMM b.ventana_inicio :=
      hval b (List.mem_mergeSort.mp hb)
    simp only [pedidosLe, Bool.not_eq_true'] at hle
    simp only [keyLt_eq, Bool.or_eq_false_iff, Bool.and_eq_false_iff,
      decide_eq_false_iff_not] at hle
    obtain ⟨hpr, hw⟩ := hle
    by_cases hpe : a.prioridad = b.prioridad
    · right
      refine ⟨hpe, ?_⟩
      by_contra hgt
      push_neg at hgt
      have := strLt_of_parse_lt _ _ hvb hva hgt
      rcases hw with hw | hw
      · exact hw hpe.symm
      · rw [this] at hw
        exact absurd hw (by simp)
    · left; omega
  · intro a b hkey hsub
    refine List.pair_sublist_mergeSort
      (fun x y z h1 h2 => pedidosLe_trans x y z h1 h2)
      (fun x y => pedidosLe_total x y) ?_ hsub
    simp only [keyOf, Prod.mk.injEq, neg_inj] at hkey
    simp only [pedidosLe, Bool.not_eq_true']
    simp only [keyLt_eq, Bool.or_eq_false_iff, Bool.and_eq_false_iff,
      decide_eq_false_iff_not]
    obtain ⟨hp, hw⟩ := hkey
    refine ⟨by omega, Or.inr ?_⟩
    rw [hw]
    exact strLt_irrefl _

/-! ## C8 — the output layer's time recomputation matches the evaluator -/

/-- The two independently coded per-stop simulations perform identical clock
updates. -/
lemma mainSimLoop_eq_evalSimLoop (dist : Dist) :
    ∀ (route : List Pedido) (t lat lon : ℚ),
      mainSimLoop dist t lat lon route = evalSimLoop dist t lat lon route := by
  intro route
  induction route with
  | nil => intro t lat lon; rfl
  | cons p rest ih =>
      intro t lat lon
      simp only [mainSimLoop, evalSimLoop, TIEMPO_SERVICIO_MINUTOS]
      rw [ih]

/-- A feasible run of the evaluator's loop bounds every (post-wait) arrival
by its window close and the final clock by the workday limit, with the
arrival clocks given by `evalSimLoop`. -/
lemma routeMetricsLoop_feasible_facts (dist : Dist) :
    ∀ (route : List Pedido) (m : RouteMetrics) (t lat lon : ℚ),
      (routeMetricsLoop dist m t lat lon route).is_feasible = true →
      List.Forall₂ (fun time p => time ≤ (parseHHMM p.ventana_fin : ℚ))
        (evalSimLoop dist t lat lon route).1 route ∧
      ((evalSimLoop dist t lat lon route).2 - HORA_INICIO_MIN) / 60 ≤ MAX_JORNADA_HORAS := by
  intro route
  induction route with
  | nil =>
      intro m t lat lon h
      simp only [routeMetricsLoop] at h
      refine ⟨List.Forall₂.nil, ?_⟩
      simp only [evalSimLoop]
      by_contra hgt
      push_neg at hgt
      rw [if_pos hgt] at h
      exact absurd h (by simp)
  | cons p rest ih =>
      intro m t lat lon h
      rw [routeMetricsLoop_cons] at h
      simp only [] at h
      simp only [evalSimLoop]
      revert h
      split <;> split
      · intro h; exact absurd h (by simp)
      · intro h
        rename_i hwait hlate
        push_neg at hlate
        have hrec := ih _ _ _ _ h
        exact ⟨List.Forall₂.cons hlate hrec.1, hrec.2⟩
      · intro h; exact absurd h (by simp)
      · intro h
        rename_i hwait hlate
        push_neg at hlate
        have hrec := ih _ _ _ _ h
        exact ⟨List.Forall₂.cons hlate hrec.1, hrec.2⟩

/-- The facts of `routeMetricsLoop_feasible_facts` lifted to
`calculate_route_metrics` and `evalSim`. -/
lemma metrics_feasible_facts (dist : Dist) (v : Vehiculo) (route : Route)
    (h : (calculate_route_metrics dist v route).is_feasible = true) :
    List.Forall₂ (fun time p => time ≤ (parseHHMM p.ventana_fin : ℚ))
      (evalSim dist v route).1 route ∧
    evalRouteHours dist v route ≤ MAX_JORNADA_HORAS := by
  have hcap : ¬ sumPeso route > v.capacidad_kg := by
    intro hgt
    simp only [calculate_route_metrics] at h
    rw [if_pos hgt] at h
    exact absurd h (by simp)
  simp only [calculate_route_metrics] at h
  rw [if_neg hcap] at h
  exact routeMetricsLoop_feasible_facts dist route _ _ _ _ h

/-- C8: for a vehicle with a non-empty feasible route, the
`hora_estimada_entrega` clocks computed by the output layer in main.py equal
the evaluator's post-wait arrival clocks stop by stop (hence the formatted
"HH:MM" strings agree), and the reported `tiempo_total_horas` equals the
evaluator's total route duration (travel, wait, and the 10-minute service at
every stop included): the two independently coded simulations agree. -/
theorem c8_output_matches_evaluator (dist : Dist) (v : Vehiculo) (route : Route)
    (hne : route ≠ [])
    (hfeas : (calculate_route_metrics dist v route).is_feasible = true) :
    (mainSim dist v route).1 = (evalSim dist v route).1 ∧
    (mainSim dist v route).1.map fmtHHMM = ((evalSim dist v route).1.map fmtHHMM) ∧
    mainRouteHours dist v route = evalRouteHours dist v route ∧
    List.Forall₂ (fun time p => time ≤ (parseHHMM p.ventana_fin : ℚ))
      (mainSim dist v route).1 route := by
  have hmain : mainSim dist v route = evalSim dist v route := by
    unfold mainSim evalSim
    exact mainSimLoop_eq_evalSimLoop dist route _ _ _
  refine ⟨by rw [hmain], by rw [hmain], ?_, ?_⟩
  · unfold mainRouteHours evalRouteHours
    rw [hmain]
  · rw [hmain]
    exact (metrics_feasible_facts dist v route hfeas).1

/-! ## Structural lemmas about the routes representation -/

lemma mset_insertIdx {α : Type} (x : α) :
    ∀ (l : List α) (i : ℕ), i ≤ l.length →
      ((l.insertIdx i x : List α) : Multiset α) = x ::ₘ (l : Multiset α) := by
  intro l
  induction l with
  | nil =>
      intro i hi
      have h0 : i = 0 := by simpa using hi
      subst h0
      rfl
  | cons c cs ih =>
      intro i hi
      cases i with
      | zero => rfl
      | succ j =>
          rw [List.insertIdx_succ_cons]
          rw [← Multiset.cons_coe, ← Multiset.cons_coe,
            ih j (by simpa using hi), Multiset.cons_swap]

lemma mset_set {α : Type} (x d : α) :
    ∀ (l : List α) (i : ℕ), i < l.length →
      (l.getD i d) ::ₘ ((l.set i x : List α) : Multiset α) = x ::ₘ (l : Multiset α) := by
  intro l
  induction l with
  | nil => intro i hi; simp at hi
  | cons c cs ih =>
      intro i hi
      cases i with
      | zero =>
          simp only [List.set, List.getD_cons_zero]
          rw [← Multiset.cons_coe, ← Multiset.cons_coe]
          exact Multiset.cons_swap c x ↑cs
      | succ j =>
          simp only [List.set, List.getD_cons_succ]
          rw [← Multiset.cons_coe, ← Multiset.cons_coe, Multiset.cons_swap,
            ih j (by simpa using hi), Multiset.cons_swap]

lemma mset_eraseIdx {α : Type} (d : α) :
    ∀ (l : List α) (i : ℕ), i < l.length →
      (l.getD i d) ::ₘ ((l.eraseIdx i : List α) : Multiset α) = (l : Multiset α) := by
  intro l
  induction l with
  | nil => intro i hi; simp at hi
  | cons c cs ih =>
      intro i hi
      cases i with
      | zero => simp [List.eraseIdx]
      | succ j =>
          simp only [List.eraseIdx, List.getD_cons_succ]
          rw [← Multiset.cons_coe, ← Multiset.cons_coe, Multiset.cons_swap,
            ih j (by simpa using hi)]

lemma routesM_cons (q : Vehiculo × Route) (rest : Routes) :
    routesM (q :: rest) = ((q.2 : List Pedido) : Multiset Pedido) + routesM rest := by
  simp [routesM]

lemma routesM_modify :
    ∀ (rs : Routes) (i : ℕ) (r : Route), i < rs.length →
      routesM (modifyRoute rs i r) + ((nthRoute rs i : List Pedido) : Multiset Pedido) =
        routesM rs + ((r : List Pedido) : Multiset Pedido) := by
  intro rs
  induction rs with
  | nil => intro i r hi; simp at hi
  | cons q rest ih =>
      intro i r hi
      obtain ⟨v, r0⟩ := q
      cases i with
      | zero =>
          simp only [modifyRoute, nthRoute, List.getD_cons_zero]
          rw [routesM_cons, routesM_cons]
          abel
      | succ j =>
          simp only [modifyRoute, nthRoute, List.getD_cons_succ]
          rw [routesM_cons, routesM_cons]
          have := ih j r (by simpa using hi)
          simp only [nthRoute] at this
          rw [add_assoc, this]
          abel

lemma routesM_insertIntoRoute :
    ∀ (rs : Routes) (i idx : ℕ) (p : Pedido), i < rs.length →
      idx ≤ (nthRoute rs i).length →
      routesM (insertIntoRoute rs i idx p) = p ::ₘ routesM rs := by
  intro rs
  induction rs with
  | nil => intro i idx p hi; simp at hi
  | cons q rest ih =>
      intro i idx p hi hidx
      obtain ⟨v, r0⟩ := q
      cases i with
      | zero =>
          simp only [insertIntoRoute]
          rw [routesM_cons, routesM_cons]
          simp only [nthRoute, List.getD_cons_zero] at hidx
          rw [mset_insertIdx p r0 idx hidx, Multiset.cons_add]
      | succ j =>
          simp only [insertIntoRoute]
          rw [routesM_cons, routesM_cons]
          simp only [nthRoute, List.getD_cons_succ] at hidx
          rw [ih j idx p (by simpa using hi) hidx, Multiset.add_cons]

lemma modifyRoute_map_fst :
    ∀ (rs : Routes) (i : ℕ) (r : Route),
      (modifyRoute rs i r).map Prod.fst = rs.map Prod.fst := by
  intro rs
  induction rs with
  | nil => intro i r; rfl
  | cons q rest ih =>
      intro i r
      cases i with
      | zero => rfl
      | succ j => simp only [modifyRoute, List.map_cons, ih]

lemma insertIntoRoute_map_fst :
    ∀ (rs : Routes) (i idx : ℕ) (p : Pedido),
      (insertIntoRoute rs i idx p).map Prod.fst = rs.map Prod.fst := by
  intro rs
  induction rs with
  | nil => intro i idx p; rfl
  | cons q rest ih =>
      intro i idx p
      obtain ⟨v, r0⟩ := q
      cases i with
      | zero => rfl
      | succ j => simp only [insertIntoRoute, List.map_cons, ih]

lemma modifyRoute_length (rs : Routes) (i : ℕ) (r : Route) :
    (modifyRoute rs i r).length = rs.length := by
  have := congrArg List.length (modifyRoute_map_fst rs i r)
  simpa using this

lemma insertIntoRoute_length (rs : Routes) (i idx : ℕ) (p : Pedido) :
    (insertIntoRoute rs i idx p).length = rs.length := by
  have := congrArg List.length (insertIntoRoute_map_fst rs i idx p)
  simpa using this

lemma getD_map_pedido (d : Unassigned) :
    ∀ (l : List Unassigned) (i : ℕ), i < l.length →
      (l.map Unassigned.pedido).getD i d.pedido = (l.getD i d).pedido := by
  intro l
  induction l with
  | nil => intro i hi; simp at hi
  | cons u rest ih =>
      intro i hi
      cases i with
      | zero => rfl
      | succ j => simpa using ih j (by simpa using hi)

lemma map_pedido_eraseIdx :
    ∀ (l : List Unassigned) (i : ℕ),
      (l.eraseIdx i).map Unassigned.pedido = (l.map Unassigned.pedido).eraseIdx i := by
  intro l
  induction l with
  | nil => intro i; rfl
  | cons u rest ih =>
      intro i
      cases i with
      | zero => rfl
      | succ j => simp only [List.eraseIdx, List.map_cons, ih]

/-! ## Greedy scan invariants -/

/-- Every route in a solution is feasible per the evaluator. -/
def FeasAll (dist : Dist) (rs : Routes) : Prop :=
  ∀ q ∈ rs, (calculate_route_metrics dist q.1 q.2).is_feasible = true

/-- Any insertion the position scan records is one of the scanned positions
and has finite insertion cost. -/
lemma scanPositions_inv (dist : Dist) (v : Vehiculo) (route : Route) (pedido : Pedido)
    (vIdx : ℕ) (base : ℚ) (Q : ℕ → ℕ → Prop)
    (hQ : ∀ i, i ≤ route.length →
      calculate_route_cost dist v (route.insertIdx i pedido) ≠ ⊤ → Q vIdx i) :
    ∀ (positions : List ℕ) (acc : BestIns),
      (∀ i ∈ positions, i ≤ route.length) →
      (∀ vi i, acc.bestIns = some (vi, i) → Q vi i) →
      ∀ vi i, (scanPositions dist v route pedido vIdx base positions acc).bestIns
        = some (vi, i) → Q vi i := by
  intro positions
  induction positions with
  | nil => intro acc hpos hacc vi i h; exact hacc vi i h
  | cons j rest ih =>
      intro acc hpos hacc vi i h
      simp only [scanPositions] at h
      refine ih _ (fun i hi => hpos i (List.mem_cons_of_mem _ hi)) ?_ vi i h
      intro vi' i' hrec
      by_cases hne : calculate_route_cost dist v (route.insertIdx j pedido) ≠ ⊤
      · rw [if_pos hne] at hrec
        by_cases hlt : (((calculate_route_cost dist v (route.insertIdx j pedido)).untop' 0
            - base : ℚ) : WithTop ℚ) < acc.bestDelta
        · rw [if_pos hlt] at hrec
          have hrec' : some (vIdx, j) = some (vi', i') := hrec
          have hpair := Option.some.inj hrec'
          have h1 : vIdx = vi' := congrArg Prod.fst hpair
          have h2 : j = i' := congrArg Prod.snd hpair
          subst h1
          subst h2
          exact hQ j (hpos j (List.mem_cons_self _ _)) hne
        · rw [if_neg hlt] at hrec
          exact hacc vi' i' hrec
      · rw [if_neg hne] at hrec
        exact hacc vi' i' hrec

/-- The vehicle scan only records insertions whose (fleet index, position)
satisfy the per-entry property. -/
lemma scanVehicles_inv (dist : Dist) (pedido : Pedido) (Q : ℕ → ℕ → Prop) :
    ∀ (items : List (ℕ × (Vehiculo × Route))) (acc : BestIns),
      (∀ e ∈ items, ∀ i, i ≤ e.2.2.length →
        calculate_route_cost dist e.2.1 (e.2.2.insertIdx i pedido) ≠ ⊤ → Q e.1 i) →
      (∀ vi i, acc.bestIns = some (vi, i) → Q vi i) →
      ∀ vi i, (scanVehicles dist pedido items acc).bestIns = some (vi, i) → Q vi i := by
  intro items
  induction items with
  | nil => intro acc hitems hacc vi i h; exact hacc vi i h
  | cons e rest ih =>
      intro acc hitems hacc vi i h
      obtain ⟨vIdx, v, route⟩ := e
      simp only [scanVehicles] at h
      refine ih _ (fun e he => hitems e (List.mem_cons_of_mem _ he)) ?_ vi i h
      intro vi' i' hrec
      refine scanPositions_inv dist v route pedido vIdx _ Q ?_ _ acc ?_ hacc vi' i' hrec
      · intro i hi hne
        exact hitems (vIdx, v, route) (List.mem_cons_self _ _) i hi hne
      · intro i hi
        rw [List.mem_range] at hi
        omega

/-- Entries of `rs.enum` recover the routes/vehicle accessors. -/
lemma enum_entry_facts (rs : Routes) (vIdx : ℕ) (v : Vehiculo) (route : Route)
    (h : (vIdx, (v, route)) ∈ rs.enum) :
    vIdx < rs.length ∧ nthRoute rs vIdx = route ∧ nthVehiculo rs vIdx = v := by
  rw [List.mk_mem_enum_iff_getElem?] at h
  have hlt : vIdx < rs.length := by
    by_contra hge
    push_neg at hge
    rw [List.getElem?_eq_none hge] at h
    exact Option.noConfusion h
  have hgd : rs.getD vIdx default = (v, route) := by
    rw [List.getD_eq_getElem?_getD, h]
    rfl
  refine ⟨hlt, ?_, ?_⟩
  · show (rs.getD vIdx default).2 = route
    rw [hgd]
  · show (rs.getD vIdx default).1 = v
    rw [hgd]

/-- Membership in `insertIntoRoute`: either an untouched entry or the
entry at the modified index with the order inserted. -/
lemma mem_insertIntoRoute :
    ∀ (rs : Routes) (i idx : ℕ) (p : Pedido) (q : Vehiculo × Route),
      i < rs.length →
      q ∈ insertIntoRoute rs i idx p →
      q ∈ rs ∨ q = (nthVehiculo rs i, (nthRoute rs i).insertIdx idx p) := by
  intro rs
  induction rs with
  | nil => intro i idx p q hi; simp at hi
  | cons e rest ih =>
      intro i idx p q hi hq
      obtain ⟨v, r0⟩ := e
      cases i with
      | zero =>
          simp only [insertIntoRoute] at hq
          rcases List.mem_cons.mp hq with h | h
          · right
            simp [h, nthRoute, nthVehiculo]
          · left; exact List.mem_cons_of_mem _ h
      | succ j =>
          simp only [insertIntoRoute] at hq
          rcases List.mem_cons.mp hq with h | h
          · left; rw [h]; exact List.mem_cons_self _ _
          · rcases ih j idx p q (by simpa using hi) h with h2 | h2
            · left; exact List.mem_cons_of_mem _ h2
            · right
              simpa [nthRoute, nthVehiculo] using h2

/-! ## Greedy step and loop invariants -/

lemma maxCap_isSome (vehiculos : List Vehiculo) (hv : vehiculos ≠ []) :
    (maxCap vehiculos).isSome := by
  cases vehiculos with
  | nil => exact absurd rfl hv
  | cons v rest =>
      simp only [maxCap]
      cases maxCap rest <;> simp

/-- What one greedy step does to the solution: it is defined (the fleet being
nonempty), it adds the processed order to exactly one place, it keeps the
vehicle pairing, and it preserves per-route feasibility. -/
lemma greedy_step_inv (dist : Dist) (vehiculos : List Vehiculo) (sol : Sol)
    (pedido : Pedido) (sol' : Sol)
    (h : greedy_step dist vehiculos sol pedido = some sol') :
    solM sol' = pedido ::ₘ solM sol ∧
    sol'.routes.map Prod.fst = sol.routes.map Prod.fst ∧
    (FeasAll dist sol.routes → FeasAll dist sol'.routes) := by
  rcases hmc : maxCap vehiculos with _ | mc
  · rw [greedy_step, hmc] at h
    exact Option.noConfusion h
  rw [greedy_step, hmc] at h
  simp only [] at h
  by_cases hw : pedido.peso_kg > mc
  · rw [if_pos hw] at h
    have hsol : sol' = { sol with unassigned :=
        sol.unassigned ++ [⟨pedido, .pesoExcesivo pedido.peso_kg mc⟩] } := by
      simpa using h.symm
    subst hsol
    refine ⟨?_, rfl, fun hf => hf⟩
    simp only [solM, List.map_append, List.map_cons, List.map_nil]
    rw [← Multiset.coe_add]
    rw [← Multiset.singleton_add]
    simp only [Multiset.coe_singleton]
    abel
  · rw [if_neg hw] at h
    rcases hscan : (scanVehicles dist pedido sol.routes.enum ⟨⊤, none⟩).bestIns
      with _ | ⟨vIdx, idx⟩
    · rw [hscan] at h
      have hsol : sol' = { sol with unassigned :=
          sol.unassigned ++ [⟨pedido, .noFactible⟩] } := by
        simpa using h.symm
      subst hsol
      refine ⟨?_, rfl, fun hf => hf⟩
      simp only [solM, List.map_append, List.map_cons, List.map_nil]
      rw [← Multiset.coe_add, ← Multiset.singleton_add]
      simp only [Multiset.coe_singleton]
      abel
    · rw [hscan] at h
      have hsol : sol' = { sol with routes := insertIntoRoute sol.routes vIdx idx pedido } := by
        simpa using h.symm
      subst hsol
      have hgood : vIdx < sol.routes.length ∧ idx ≤ (nthRoute sol.routes vIdx).length ∧
          calculate_route_cost dist (nthVehiculo sol.routes vIdx)
            ((nthRoute sol.routes vIdx).insertIdx idx pedido) ≠ ⊤ := by
        refine scanVehicles_inv dist pedido
          (fun vi i => vi < sol.routes.length ∧ i ≤ (nthRoute sol.routes vi).length ∧
            calculate_route_cost dist (nthVehiculo sol.routes vi)
              ((nthRoute sol.routes vi).insertIdx i pedido) ≠ ⊤)
          sol.routes.enum ⟨⊤, none⟩ ?_ (by intro vi i hx; exact Option.noConfusion hx)
          vIdx idx hscan
        · intro e he i hi hne
          obtain ⟨vi, v, route⟩ := e
          obtain ⟨hlt, hr, hveh⟩ := enum_entry_facts sol.routes vi v route he
          refine ⟨hlt, ?_, ?_⟩
          · rw [hr]; exact hi
          · rw [hr, hveh]; exact hne
      obtain ⟨hlt, hle, hne⟩ := hgood
      refine ⟨?_, insertIntoRoute_map_fst _ _ _ _, ?_⟩
      · simp only [solM]
        rw [routesM_insertIntoRoute sol.routes vIdx idx pedido hlt hle, Multiset.cons_add]
      · intro hf q hq
        rcases mem_insertIntoRoute sol.routes vIdx idx pedido q hlt hq with h2 | h2
        · exact hf q h2
        · rw [h2]
          exact (route_cost_ne_top_iff dist _ _).mp hne

lemma greedy_loop_inv (dist : Dist) (vehiculos : List Vehiculo) :
    ∀ (l : List Pedido) (sol : Sol) (sol' : Sol),
      greedy_loop dist vehiculos l sol = some sol' →
      solM sol' = solM sol + (l : Multiset Pedido) ∧
      sol'.routes.map Prod.fst = sol.routes.map Prod.fst ∧
      (FeasAll dist sol.routes → FeasAll dist sol'.routes) := by
  intro l
  induction l with
  | nil =>
      intro sol sol' h
      simp only [greedy_loop, Option.some.injEq] at h
      subst h
      exact ⟨by simp, rfl, fun hf => hf⟩
  | cons p rest ih =>
      intro sol sol' h
      simp only [greedy_loop] at h
      rcases hstep : greedy_step dist vehiculos sol p with _ | sol1
      · rw [hstep] at h; exact Option.noConfusion h
      · rw [hstep] at h
        simp only [Option.some_bind] at h
        obtain ⟨hm1, hf1, hfe1⟩ := greedy_step_inv dist vehiculos sol p sol1 hstep
        obtain ⟨hm2, hf2, hfe2⟩ := ih sol1 sol' h
        refine ⟨?_, hf2.trans hf1, fun hf => hfe2 (hfe1 hf)⟩
        rw [hm2, hm1]
        rw [← Multiset.cons_coe, Multiset.add_cons, Multiset.cons_add]

/-- An empty route is feasible for a vehicle with non-negative capacity. -/
lemma empty_route_feasible (dist : Dist) (v : Vehiculo) (hcap : 0 ≤ v.capacidad_kg) :
    (calculate_route_metrics dist v []).is_feasible = true := by
  simp only [calculate_route_metrics, sumPeso]
  rw [if_neg (by push_neg; exact hcap)]
  simp only [routeMetricsLoop, HORA_INICIO_MIN, MAX_JORNADA_HORAS]
  norm_num

lemma routesM_init (vehiculos : List Vehiculo) :
    routesM (vehiculos.map (fun v => (v, []))) = 0 := by
  induction vehiculos with
  | nil => rfl
  | cons v rest ih => simp only [List.map_cons, routesM_cons, ih]; rfl

/-- The greedy's collected guarantees: when it returns (the fleet being
nonempty), its solution carries exactly the input orders, pairs the routes
with the fleet in order, and every route is feasible when capacities are
non-negative. -/
lemma greedy_props (dist : Dist) (vehiculos : List Vehiculo) (pedidos : List Pedido)
    (sol : Sol) (h : solve_vrp_greedy dist vehiculos pedidos = some sol) :
    solM sol = (pedidos : Multiset Pedido) ∧
    sol.routes.map Prod.fst = vehiculos ∧
    ((∀ v ∈ vehiculos, 0 ≤ v.capacidad_kg) → FeasAll dist sol.routes) := by
  unfold solve_vrp_greedy at h
  obtain ⟨hm, hf, hfe⟩ := greedy_loop_inv dist vehiculos (sortPedidos pedidos) _ _ h
  refine ⟨?_, ?_, ?_⟩
  · rw [hm]
    have hinit : solM ⟨vehiculos.map (fun v => (v, [])), []⟩ = 0 := by
      simp [solM, routesM_init]
    rw [hinit, zero_add]
    exact Multiset.coe_eq_coe.mpr (List.mergeSort_perm pedidos pedidosLe)
  · rw [hf]
    simp only [List.map_map]
    have : (Prod.fst ∘ fun v : Vehiculo => (v, ([] : Route))) = id := rfl
    rw [this, List.map_id]
  · intro hcap
    refine hfe ?_
    intro q hq
    simp only [List.mem_map] at hq
    obtain ⟨v, hv, hq⟩ := hq
    rw [← hq]
    exact empty_route_feasible dist v (hcap v hv)

/-! ## SA move lemmas -/

lemma pick_mem {α : Type} (l : List α) (n : ℕ) (a : α) (h : pick l n = some a) : a ∈ l := by
  unfold pick at h
  exact List.get?_mem h

lemma pick_isSome {α : Type} (l : List α) (n : ℕ) (hl : l ≠ []) : (pick l n).isSome := by
  unfold pick
  rw [List.get?_eq_getElem?, List.getElem?_eq_getElem]
  · rfl
  · exact Nat.mod_lt n (List.length_pos.mpr hl)

lemma getD_set_ne {α : Type} (x d : α) :
    ∀ (l : List α) (i j : ℕ), i ≠ j → (l.set i x).getD j d = l.getD j d := by
  intro l
  induction l with
  | nil => intro i j hij; simp [List.set]
  | cons c cs ih =>
      intro i j hij
      cases i with
      | zero =>
          cases j with
          | zero => exact absurd rfl hij
          | succ k => rfl
      | succ i' =>
          cases j with
          | zero => rfl
          | succ k => simpa using ih i' k (by omega)

lemma nthRoute_modify_ne :
    ∀ (rs : Routes) (i j : ℕ) (r : Route), i ≠ j →
      nthRoute (modifyRoute rs i r) j = nthRoute rs j := by
  intro rs
  induction rs with
  | nil => intro i j r hij; cases i <;> rfl
  | cons q rest ih =>
      intro i j r hij
      obtain ⟨v, r0⟩ := q
      cases i with
      | zero =>
          cases j with
          | zero => exact absurd rfl hij
          | succ k => rfl
      | succ i' =>
          cases j with
          | zero => rfl
          | succ k =>
              simp only [modifyRoute, nthRoute, List.getD_cons_succ]
              exact ih i' k r (by omega)

/-- Double modification at distinct indices, additively. -/
lemma routesM_modify2 (rs : Routes) (i j : ℕ) (r1 r2 : Route)
    (hij : i ≠ j) (hi : i < rs.length) (hj : j < rs.length) :
    routesM (modifyRoute (modifyRoute rs i r1) j r2) +
      (((nthRoute rs i : List Pedido) : Multiset Pedido) +
        ((nthRoute rs j : List Pedido) : Multiset Pedido)) =
    routesM rs + (((r1 : List Pedido) : Multiset Pedido) +
      ((r2 : List Pedido) : Multiset Pedido)) := by
  have h1 := routesM_modify rs i r1 hi
  have hj' : j < (modifyRoute rs i r1).length := by rw [modifyRoute_length]; exact hj
  have h2 := routesM_modify (modifyRoute rs i r1) j r2 hj'
  rw [nthRoute_modify_ne rs i j r1 hij] at h2
  calc routesM (modifyRoute (modifyRoute rs i r1) j r2) +
        ((nthRoute rs i : Multiset Pedido) + (nthRoute rs j : Multiset Pedido))
      = (routesM (modifyRoute (modifyRoute rs i r1) j r2) +
          (nthRoute rs j : Multiset Pedido)) + (nthRoute rs i : Multiset Pedido) := by abel
    _ = (routesM (modifyRoute rs i r1) + (r2 : Multiset Pedido)) +
          (nthRoute rs i : Multiset Pedido) := by rw [h2]
    _ = (routesM (modifyRoute rs i r1) + (nthRoute rs i : Multiset Pedido)) +
          (r2 : Multiset Pedido) := by abel
    _ = (routesM rs + (r1 : Multiset Pedido)) + (r2 : Multiset Pedido) := by rw [h1]
    _ = routesM rs + ((r1 : Multiset Pedido) + (r2 : Multiset Pedido)) := by abel

/-- Any position the `insert_unassigned` scan records is one of the scanned
positions. -/
lemma bestInsertPos_inv (dist : Dist) (veh : Vehiculo) (r_target : Route) (p_un : Pedido) :
    ∀ (positions : List ℕ) (acc : Option ℕ × WithTop ℚ),
      (∀ pos ∈ positions, pos ≤ r_target.length) →
      (∀ pos, acc.1 = some pos → pos ≤ r_target.length) →
      ∀ pos, (bestInsertPos dist veh r_target p_un positions acc).1 = some pos →
        pos ≤ r_target.length := by
  intro positions
  induction positions with
  | nil => intro acc hpos hacc pos h; exact hacc pos h
  | cons j rest ih =>
      intro acc hpos hacc pos h
      simp only [bestInsertPos] at h
      refine ih _ (fun i hi => hpos i (List.mem_cons_of_mem _ hi)) ?_ pos h
      intro pos' hrec
      by_cases hne : calculate_route_cost dist veh (r_target.insertIdx j p_un) ≠ ⊤
      · rw [if_pos hne] at hrec
        by_cases hlt : calculate_route_cost dist veh (r_target.insertIdx j p_un) < acc.2
        · rw [if_pos hlt] at hrec
          have : j = pos' := Option.some.inj hrec
          rw [← this]
          exact hpos j (List.mem_cons_self _ _)
        · rw [if_neg hlt] at hrec
          exact hacc pos' hrec
      · rw [if_neg hne] at hrec
        exact hacc pos' hrec

/-- The move application preserves the vehicle pairing of the routes. -/
lemma applyMove_map_fst (dist : Dist) (c : SAChoice) (routes : Routes)
    (unas : List Unassigned) (i1 : ℕ) (mt : MoveType) :
    (applyMove dist c routes unas i1 mt).1.map Prod.fst = routes.map Prod.fst := by
  cases mt with
  | insert_unassigned =>
      simp only [applyMove]
      split
      · rfl
      · split
        · exact insertIntoRoute_map_fst _ _ _ _
        · rfl
  | swap_inter =>
      simp only [applyMove]
      split
      · split <;> (try split) <;>
          first
            | rfl
            | rw [modifyRoute_map_fst, modifyRoute_map_fst]
      · rfl
  | move_inter =>
      simp only [applyMove]
      split
      · split <;> (try split) <;>
          first
            | rfl
            | rw [modifyRoute_map_fst, modifyRoute_map_fst]
      · rfl
  | swap_intra =>
      simp only [applyMove]
      split
      · rw [modifyRoute_map_fst]
      · rfl

lemma swap_core (routes : Routes) (i1 i2v idx1 idx2 : ℕ)
    (hne : i1 ≠ i2v) (hi1 : i1 < routes.length) (hi2 : i2v < routes.length)
    (h1 : idx1 < (nthRoute routes i1).length) (h2 : idx2 < (nthRoute routes i2v).length) :
    routesM (modifyRoute
      (modifyRoute routes i1
        ((nthRoute routes i1).set idx1 ((nthRoute routes i2v).getD idx2 default)))
      i2v ((nthRoute routes i2v).set idx2 ((nthRoute routes i1).getD idx1 default))) =
    routesM routes := by
  set M1 : Multiset Pedido := ↑(nthRoute routes i1) with hM1
  set M2 : Multiset Pedido := ↑(nthRoute routes i2v) with hM2
  set p1 : Pedido := (nthRoute routes i1).getD idx1 default with hp1
  set p2 : Pedido := (nthRoute routes i2v).getD idx2 default with hp2
  have e3 := mset_set p2 default (nthRoute routes i1) idx1 h1
  have e4 := mset_set p1 default (nthRoute routes i2v) idx2 h2
  rw [← Multiset.singleton_add, ← Multiset.singleton_add] at e3 e4
  have e12 := routesM_modify2 routes i1 i2v
    ((nthRoute routes i1).set idx1 p2) ((nthRoute routes i2v).set idx2 p1) hne hi1 hi2
  have hN : ((((nthRoute routes i1).set idx1 p2 : List Pedido) : Multiset Pedido) +
      (((nthRoute routes i2v).set idx2 p1 : List Pedido) : Multiset Pedido)) = M1 + M2 := by
    have hcancel :
        ((((nthRoute routes i1).set idx1 p2 : List Pedido) : Multiset Pedido) +
          (((nthRoute routes i2v).set idx2 p1 : List Pedido) : Multiset Pedido)) +
            ({p1} + {p2}) = (M1 + M2) + ({p1} + {p2}) := by
      calc ((((nthRoute routes i1).set idx1 p2 : List Pedido) : Multiset Pedido) +
            (((nthRoute routes i2v).set idx2 p1 : List Pedido) : Multiset Pedido)) +
              ({p1} + {p2})
          = ({p1} + (((nthRoute routes i1).set idx1 p2 : List Pedido) : Multiset Pedido)) +
              ({p2} + (((nthRoute routes i2v).set idx2 p1 : List Pedido) : Multiset Pedido)) := by
            abel
        _ = ({p2} + M1) + ({p1} + M2) := by rw [e3, e4]
        _ = (M1 + M2) + ({p1} + {p2}) := by abel
    exact add_right_cancel hcancel
  rw [hN] at e12
  exact add_right_cancel e12

lemma move_core (routes : Routes) (i1 i2v idx1 insIdx : ℕ)
    (hne : i1 ≠ i2v) (hi1 : i1 < routes.length) (hi2 : i2v < routes.length)
    (h1 : idx1 < (nthRoute routes i1).length) (hins : insIdx ≤ (nthRoute routes i2v).length) :
    routesM (modifyRoute
      (modifyRoute routes i1 ((nthRoute routes i1).eraseIdx idx1))
      i2v ((nthRoute routes i2v).insertIdx insIdx ((nthRoute routes i1).getD idx1 default))) =
    routesM routes := by
  set p : Pedido := (nthRoute routes i1).getD idx1 default with hp
  have e3 := mset_eraseIdx default (nthRoute routes i1) idx1 h1
  have e4 := mset_insertIdx p (nthRoute routes i2v) insIdx hins
  rw [← Multiset.singleton_add] at e3 e4
  have e12 := routesM_modify2 routes i1 i2v
    ((nthRoute routes i1).eraseIdx idx1)
    ((nthRoute routes i2v).insertIdx insIdx p) hne hi1 hi2
  have hN : ((((nthRoute routes i1).eraseIdx idx1 : List Pedido) : Multiset Pedido) +
      (((nthRoute routes i2v).insertIdx insIdx p : List Pedido) : Multiset Pedido)) =
      (((nthRoute routes i1) : List Pedido) : Multiset Pedido) +
        (((nthRoute routes i2v) : List Pedido) : Multiset Pedido) := by
    calc ((((nthRoute routes i1).eraseIdx idx1 : List Pedido) : Multiset Pedido) +
          (((nthRoute routes i2v).insertIdx insIdx p : List Pedido) : Multiset Pedido))
        = ((((nthRoute routes i1).eraseIdx idx1 : List Pedido) : Multiset Pedido) +
            ({p} + (((nthRoute routes i2v) : List Pedido) : Multiset Pedido))) := by rw [e4]
      _ = ({p} + (((nthRoute routes i1).eraseIdx idx1 : List Pedido) : Multiset Pedido)) +
            (((nthRoute routes i2v) : List Pedido) : Multiset Pedido) := by abel
      _ = (((nthRoute routes i1) : List Pedido) : Multiset Pedido) +
            (((nthRoute routes i2v) : List Pedido) : Multiset Pedido) := by rw [e3]
  rw [hN] at e12
  exact add_right_cancel e12

lemma intra_core (routes : Routes) (i1 idx1 idx2 : ℕ)
    (hi1 : i1 < routes.length) (h1 : idx1 < (nthRoute routes i1).length)
    (h2 : idx2 < (nthRoute routes i1).length) (hne : idx1 ≠ idx2) :
    routesM (modifyRoute routes i1
      (((nthRoute routes i1).set idx1 ((nthRoute routes i1).getD idx2 default)).set idx2
        ((nthRoute routes i1).getD idx1 default))) =
    routesM routes := by
  set p1 : Pedido := (nthRoute routes i1).getD idx1 default with hp1
  set p2 : Pedido := (nthRoute routes i1).getD idx2 default with hp2
  have e1 := mset_set p2 default (nthRoute routes i1) idx1 h1
  have h2' : idx2 < ((nthRoute routes i1).set idx1 p2).length := by
    rw [List.length_set]; exact h2
  have e2 := mset_set p1 default ((nthRoute routes i1).set idx1 p2) idx2 h2'
  rw [getD_set_ne p2 default (nthRoute routes i1) idx1 idx2 hne] at e2
  -- e2 : p2 ::ₘ ↑(final) = p1 ::ₘ ↑(set idx1 p2), e1 : p1 ::ₘ ↑(set idx1 p2) = p2 ::ₘ ↑route1
  rw [e1] at e2
  have hF : ((((nthRoute routes i1).set idx1 p2).set idx2 p1 : List Pedido) : Multiset Pedido)
      = (((nthRoute routes i1) : List Pedido) : Multiset Pedido) := by
    have := e2
    rw [← Multiset.singleton_add, ← Multiset.singleton_add] at this
    exact add_left_cancel this
  have e12 := routesM_modify routes i1
    (((nthRoute routes i1).set idx1 p2).set idx2 p1) hi1
  rw [hF] at e12
  exact add_right_cancel e12

/-- The move application preserves the multiset of orders across the routes
and the unassigned list. -/
lemma applyMove_mset (dist : Dist) (c : SAChoice) (routes : Routes)
    (unas : List Unassigned) (i1 : ℕ) (mt : MoveType) (hi1 : i1 < routes.length) :
    routesM (applyMove dist c routes unas i1 mt).1 +
      (((applyMove dist c routes unas i1 mt).2.1.map Unassigned.pedido : List Pedido) :
        Multiset Pedido) =
    routesM routes + ((unas.map Unassigned.pedido : List Pedido) : Multiset Pedido) := by
  have hlen0 : 0 < routes.length := Nat.lt_of_le_of_lt (Nat.zero_le _) hi1
  cases mt with
  | insert_unassigned =>
      simp only [applyMove]
      split
      · rfl
      · rename_i hunas
        split
        · rename_i best_pos hscan
          have hvt : c.vt % routes.length < routes.length := Nat.mod_lt _ hlen0
          have hpos : best_pos ≤ (nthRoute routes (c.vt % routes.length)).length := by
            refine bestInsertPos_inv dist (nthVehiculo routes (c.vt % routes.length))
              (nthRoute routes (c.vt % routes.length))
              ((unas.getD (c.un % unas.length) default).pedido)
              (List.range ((nthRoute routes (c.vt % routes.length)).length + 1)) (none, ⊤)
              ?_ ?_ best_pos hscan
            · intro pos hmem
              rw [List.mem_range] at hmem
              omega
            · intro pos hx
              exact Option.noConfusion hx
          rw [routesM_insertIntoRoute routes (c.vt % routes.length) best_pos
            ((unas.getD (c.un % unas.length) default).pedido) hvt hpos]
          have hun : c.un % unas.length < unas.length :=
            Nat.mod_lt _ (List.length_pos.mpr hunas)
          have hun' : c.un % unas.length < (unas.map Unassigned.pedido).length := by
            rw [List.length_map]; exact hun
          have herase := mset_eraseIdx (default : Unassigned).pedido
            (unas.map Unassigned.pedido) (c.un % unas.length) hun'
          rw [getD_map_pedido default unas (c.un % unas.length) hun] at herase
          rw [map_pedido_eraseIdx]
          rw [Multiset.cons_add, ← Multiset.add_cons, herase]
        · rfl
  | swap_inter =>
      simp only [applyMove]
      split
      · rename_i hlen1
        have hk2 : c.v2 % (routes.length - 1) < routes.length - 1 :=
          Nat.mod_lt _ (by omega)
        split <;> split
        · rename_i hk hne12
          refine congrArg (fun z => z + _) ?_
          exact swap_core routes i1 (c.v2 % (routes.length - 1)) _ _ (by omega) hi1
            (by omega) (Nat.mod_lt _ (List.length_pos.mpr hne12.1))
            (Nat.mod_lt _ (List.length_pos.mpr hne12.2))
        · rfl
        · rename_i hk hne12
          refine congrArg (fun z => z + _) ?_
          exact swap_core routes i1 (c.v2 % (routes.length - 1) + 1) _ _ (by omega) hi1
            (by omega) (Nat.mod_lt _ (List.length_pos.mpr hne12.1))
            (Nat.mod_lt _ (List.length_pos.mpr hne12.2))
        · rfl
      · rfl
  | move_inter =>
      simp only [applyMove]
      split
      · rename_i hlen1
        have hk2 : c.v2 % (routes.length - 1) < routes.length - 1 :=
          Nat.mod_lt _ (by omega)
        split <;> (try split) <;>
          first
          | rfl
          | (rename_i hne1 hk
             refine congrArg (fun z => z + _) ?_
             exact move_core routes i1 (c.v2 % (routes.length - 1)) _ _ (by omega) hi1
               (by omega) (Nat.mod_lt _ (List.length_pos.mpr hne1))
               (Nat.le_of_lt_succ (Nat.mod_lt _ (Nat.succ_pos _))))
          | (rename_i hne1 hk
             refine congrArg (fun z => z + _) ?_
             exact move_core routes i1 (c.v2 % (routes.length - 1) + 1) _ _ (by omega) hi1
               (by omega) (Nat.mod_lt _ (List.length_pos.mpr hne1))
               (Nat.le_of_lt_succ (Nat.mod_lt _ (Nat.succ_pos _))))
      · rfl
  | swap_intra =>
      simp only [applyMove]
      split
      · rename_i hlen1
        refine congrArg (fun z => z + _) ?_
        have hlen1' : 0 < (nthRoute routes i1).length := by omega
        have hidx1 : c.i1 % (nthRoute routes i1).length < (nthRoute routes i1).length :=
          Nat.mod_lt _ hlen1'
        have hk2 : c.i2 % ((nthRoute routes i1).length - 1) <
            (nthRoute routes i1).length - 1 := Nat.mod_lt _ (by omega)
        by_cases hk : c.i2 % ((nthRoute routes i1).length - 1)
            < c.i1 % (nthRoute routes i1).length
        · rw [if_pos hk]
          exact intra_core routes i1 _ _ hi1 hidx1 (by omega) (by omega)
        · rw [if_neg hk]
          exact intra_core routes i1 _ _ hi1 hidx1 (by omega) (by omega)
      · rfl

/-! ## SA step and loop invariants -/

/-- What one annealing iteration can do: either the state is unchanged (apart
from cooling), or a moved candidate obtained by `applyMove` at an in-bounds
vehicle index was accepted and committed, with `best` re-snapshotted exactly
on strict improvement. -/
lemma sa_step_cases (dist : Dist) (expFn : ℚ → ℚ) (cr : ℚ) (st : SAState) (c : SAChoice)
    (st' : SAState) (h : sa_step dist expFn cr st c = some st') :
    (st'.current = st.current ∧ st'.current_cost = st.current_cost ∧
      st'.best = st.best ∧ st'.best_cost = st.best_cost) ∨
    (∃ mt i1, i1 < st.current.routes.length ∧
      (applyMove dist c st.current.routes st.current.unassigned i1 mt).2.2 = true ∧
      acceptMove (calculate_global_cost dist
          (applyMove dist c st.current.routes st.current.unassigned i1 mt).1
          (applyMove dist c st.current.routes st.current.unassigned i1 mt).2.1)
        st.current_cost st.temp c.r expFn = true ∧
      st'.current = ⟨(applyMove dist c st.current.routes st.current.unassigned i1 mt).1,
        (applyMove dist c st.current.routes st.current.unassigned i1 mt).2.1⟩ ∧
      st'.current_cost = calculate_global_cost dist
        (applyMove dist c st.current.routes st.current.unassigned i1 mt).1
        (applyMove dist c st.current.routes st.current.unassigned i1 mt).2.1 ∧
      ((st'.best = st.best ∧ st'.best_cost = st.best_cost ∧
          ¬ st'.current_cost < st.best_cost) ∨
        (st'.best = st'.current ∧ st'.best_cost = st'.current_cost ∧
          st'.current_cost < st.best_cost))) := by
  unfold sa_step at h
  simp only [] at h
  rcases hmt : pick ([MoveType.swap_inter, MoveType.move_inter, MoveType.swap_intra] ++
      (if st.current.unassigned ≠ [] then
        [MoveType.insert_unassigned, MoveType.insert_unassigned] else []))
      c.move with _ | mt
  · rw [hmt] at h
    exact Option.noConfusion h
  rw [hmt] at h
  rcases hi1 : pick (List.range st.current.routes.length) c.v1 with _ | i1
  · rw [hi1] at h
    exact Option.noConfusion h
  rw [hi1] at h
  have hi1lt : i1 < st.current.routes.length := by
    have := pick_mem _ _ _ hi1
    rwa [List.mem_range] at this
  simp only [] at h
  by_cases hmoved : (applyMove dist c st.current.routes st.current.unassigned i1 mt).2.2 = true
  · rw [if_pos hmoved] at h
    by_cases hacc : acceptMove (calculate_global_cost dist
        (applyMove dist c st.current.routes st.current.unassigned i1 mt).1
        (applyMove dist c st.current.routes st.current.unassigned i1 mt).2.1)
      st.current_cost st.temp c.r expFn = true
    · rw [if_pos hacc] at h
      by_cases hbet : calculate_global_cost dist
          (applyMove dist c st.current.routes st.current.unassigned i1 mt).1
          (applyMove dist c st.current.routes st.current.unassigned i1 mt).2.1
          < st.best_cost
      · rw [if_pos hbet] at h
        right
        refine ⟨mt, i1, hi1lt, hmoved, hacc, ?_⟩
        have hst : st' = ⟨⟨_, _⟩, _, ⟨_, _⟩, _, st.temp * cr⟩ := (Option.some.inj h).symm
        subst hst
        exact ⟨rfl, rfl, Or.inr ⟨rfl, rfl, hbet⟩⟩
      · rw [if_neg hbet] at h
        right
        refine ⟨mt, i1, hi1lt, hmoved, hacc, ?_⟩
        have hst : st' = ⟨⟨_, _⟩, _, st.best, st.best_cost, st.temp * cr⟩ :=
          (Option.some.inj h).symm
        subst hst
        exact ⟨rfl, rfl, Or.inl ⟨rfl, rfl, hbet⟩⟩
    · rw [if_neg hacc] at h
      left
      have hst : st' = ⟨st.current, st.current_cost, st.best, st.best_cost, st.temp * cr⟩ :=
        (Option.some.inj h).symm
      subst hst
      exact ⟨rfl, rfl, rfl, rfl⟩
  · rw [if_neg hmoved] at h
    left
    have hst : st' = ⟨st.current, st.current_cost, st.best, st.best_cost, st.temp * cr⟩ :=
      (Option.some.inj h).symm
    subst hst
    exact ⟨rfl, rfl, rfl, rfl⟩

/-- The invariant the annealing loop maintains: the routes stay paired with
the fleet, the order multiset is conserved in both `current` and `best`, and
the cached costs are the global costs of the corresponding solutions. -/
structure SAInv (dist : Dist) (vehiculos : List Vehiculo) (L0 : Multiset Pedido)
    (st : SAState) : Prop where
  cur_fst : st.current.routes.map Prod.fst = vehiculos
  best_fst : st.best.routes.map Prod.fst = vehiculos
  cur_m : solM st.current = L0
  best_m : solM st.best = L0
  cur_cost : st.current_cost = calculate_global_cost dist st.current.routes st.current.unassigned
  best_cost_eq : st.best_cost = calculate_global_cost dist st.best.routes st.best.unassigned

lemma sa_step_preserves (dist : Dist) (expFn : ℚ → ℚ) (cr : ℚ)
    (vehiculos : List Vehiculo) (L0 : Multiset Pedido) (st : SAState) (c : SAChoice)
    (st' : SAState) (h : sa_step dist expFn cr st c = some st')
    (hinv : SAInv dist vehiculos L0 st) : SAInv dist vehiculos L0 st' := by
  rcases sa_step_cases dist expFn cr st c st' h with
    ⟨h1, h2, h3, h4⟩ | ⟨mt, i1, hi1, hmoved, hacc, hcur, hcost, hbest⟩
  · exact ⟨h1 ▸ hinv.cur_fst, h3 ▸ hinv.best_fst, h1 ▸ hinv.cur_m, h3 ▸ hinv.best_m,
      h2 ▸ h1 ▸ hinv.cur_cost, h4 ▸ h3 ▸ hinv.best_cost_eq⟩
  · have hcfst : st'.current.routes.map Prod.fst = vehiculos := by
      rw [hcur]
      rw [applyMove_map_fst]
      exact hinv.cur_fst
    have hcm : solM st'.current = L0 := by
      rw [hcur]
      show routesM _ + _ = L0
      rw [applyMove_mset dist c st.current.routes st.current.unassigned i1 mt hi1]
      exact hinv.cur_m
    have hccost : st'.current_cost =
        calculate_global_cost dist st'.current.routes st'.current.unassigned := by
      rw [hcost, hcur]
    rcases hbest with ⟨hb1, hb2, _⟩ | ⟨hb1, hb2, _⟩
    · exact ⟨hcfst, hb1 ▸ hinv.best_fst, hcm, hb1 ▸ hinv.best_m, hccost,
        hb2 ▸ hb1 ▸ hinv.best_cost_eq⟩
    · refine ⟨hcfst, hb1 ▸ hcfst, hcm, hb1 ▸ hcm, hccost, ?_⟩
      rw [hb1, hb2]
      exact hccost

lemma sa_step_best_mono (dist : Dist) (expFn : ℚ → ℚ) (cr : ℚ) (st : SAState)
    (c : SAChoice) (st' : SAState) (h : sa_step dist expFn cr st c = some st') :
    st'.best_cost ≤ st.best_cost := by
  rcases sa_step_cases dist expFn cr st c st' h with
    ⟨_, _, _, h4⟩ | ⟨mt, i1, _, _, _, _, _, hbest⟩
  · rw [h4]
  · rcases hbest with ⟨_, hb2, _⟩ | ⟨_, hb2, hlt⟩
    · rw [hb2]
    · rw [hb2]
      exact le_of_lt hlt

lemma sa_step_finite (dist : Dist) (expFn : ℚ → ℚ) (cr : ℚ) (st : SAState)
    (c : SAChoice) (st' : SAState) (h : sa_step dist expFn cr st c = some st')
    (hr : 0 ≤ c.r) (hfin : st.current_cost ≠ ⊤) : st'.current_cost ≠ ⊤ := by
  rcases sa_step_cases dist expFn cr st c st' h with
    ⟨_, h2, _, _⟩ | ⟨mt, i1, _, _, hacc, _, hcost, _⟩
  · rw [h2]; exact hfin
  · rw [hcost]
    intro htop
    rw [htop] at hacc
    unfold acceptMove at hacc
    rw [if_pos rfl, if_neg hfin] at hacc
    rw [decide_eq_true_eq] at hacc
    exact absurd hacc (by push_neg; exact hr)

lemma sa_step_routes_ne (dist : Dist) (expFn : ℚ → ℚ) (cr : ℚ) (st : SAState)
    (c : SAChoice) (st' : SAState) (h : sa_step dist expFn cr st c = some st')
    (hne : st.current.routes ≠ []) : st'.current.routes ≠ [] := by
  rcases sa_step_cases dist expFn cr st c st' h with
    ⟨h1, _, _, _⟩ | ⟨mt, i1, hi1, _, _, hcur, _, _⟩
  · rw [h1]; exact hne
  · rw [hcur]
    intro hnil
    have hfst := applyMove_map_fst dist c st.current.routes st.current.unassigned i1 mt
    rw [show (applyMove dist c st.current.routes st.current.unassigned i1 mt).1 = [] from hnil]
      at hfst
    exact hne (List.map_eq_nil.mp hfst.symm)

lemma sa_step_isSome (dist : Dist) (expFn : ℚ → ℚ) (cr : ℚ) (st : SAState) (c : SAChoice)
    (hne : st.current.routes ≠ []) : (sa_step dist expFn cr st c).isSome := by
  unfold sa_step
  simp only []
  rcases hmt : pick ([MoveType.swap_inter, MoveType.move_inter, MoveType.swap_intra] ++
      (if st.current.unassigned ≠ [] then
        [MoveType.insert_unassigned, MoveType.insert_unassigned] else []))
      c.move with _ | mt
  · have := pick_isSome ([MoveType.swap_inter, MoveType.move_inter, MoveType.swap_intra] ++
      (if st.current.unassigned ≠ [] then
        [MoveType.insert_unassigned, MoveType.insert_unassigned] else []))
      c.move (by simp)
    rw [hmt] at this
    exact absurd this (by simp)
  rcases hi1 : pick (List.range st.current.routes.length) c.v1 with _ | i1
  · have := pick_isSome (List.range st.current.routes.length) c.v1 (by
      rw [Ne, List.range_eq_nil]
      intro h0
      exact hne (List.length_eq_zero.mp h0))
    rw [hi1] at this
    exact absurd this (by simp)
  simp only []
  split <;> first | rfl | (split <;> first | rfl | (split <;> rfl))

lemma sa_loop_facts (dist : Dist) (expFn : ℚ → ℚ) (cr : ℚ)
    (vehiculos : List Vehiculo) (L0 : Multiset Pedido) :
    ∀ (choices : List SAChoice) (st st' : SAState),
      sa_loop dist expFn cr choices st = some st' →
      (SAInv dist vehiculos L0 st → SAInv dist vehiculos L0 st') ∧
      st'.best_cost ≤ st.best_cost ∧
      ((∀ c ∈ choices, 0 ≤ c.r) → st.current_cost ≠ ⊤ → st'.current_cost ≠ ⊤) := by
  intro choices
  induction choices with
  | nil =>
      intro st st' h
      have hst : st = st' := Option.some.inj h
      subst hst
      exact ⟨fun hinv => hinv, le_refl _, fun _ hfin => hfin⟩
  | cons c rest ih =>
      intro st st' h
      simp only [sa_loop] at h
      rcases hstep : sa_step dist expFn cr st c with _ | st1
      · rw [hstep] at h; exact Option.noConfusion h
      · rw [hstep] at h
        obtain ⟨ih1, ih2, ih3⟩ := ih st1 st' h
        refine ⟨fun hinv => ih1 (sa_step_preserves dist expFn cr vehiculos L0 st c st1
          hstep hinv), le_trans ih2 (sa_step_best_mono dist expFn cr st c st1 hstep), ?_⟩
        intro hr hfin
        exact ih3 (fun x hx => hr x (List.mem_cons_of_mem _ hx))
          (sa_step_finite dist expFn cr st c st1 hstep (hr c (List.mem_cons_self _ _)) hfin)

lemma sa_loop_isSome (dist : Dist) (expFn : ℚ → ℚ) (cr : ℚ) :
    ∀ (choices : List SAChoice) (st : SAState), st.current.routes ≠ [] →
      (sa_loop dist expFn cr choices st).isSome := by
  intro choices
  induction choices with
  | nil => intro st hne; rfl
  | cons c rest ih =>
      intro st hne
      simp only [sa_loop]
      rcases hstep : sa_step dist expFn cr st c with _ | st1
      · have := sa_step_isSome dist expFn cr st c hne
        rw [hstep] at this
        exact absurd this (by simp)
      · exact ih st1 (sa_step_routes_ne dist expFn cr st c st1 hstep hne)

lemma greedy_step_isSome (dist : Dist) (vehiculos : List Vehiculo) (sol : Sol)
    (pedido : Pedido) (hv : vehiculos ≠ []) :
    (greedy_step dist vehiculos sol pedido).isSome := by
  unfold greedy_step
  rcases hmc : maxCap vehiculos with _ | mc
  · have := maxCap_isSome vehiculos hv
    rw [hmc] at this
    exact absurd this (by simp)
  · simp only []
    split
    · rfl
    · split <;> rfl

lemma greedy_loop_isSome (dist : Dist) (vehiculos : List Vehiculo) (hv : vehiculos ≠ []) :
    ∀ (l : List Pedido) (sol : Sol), (greedy_loop dist vehiculos l sol).isSome := by
  intro l
  induction l with
  | nil => intro sol; rfl
  | cons p rest ih =>
      intro sol
      simp only [greedy_loop]
      rcases hstep : greedy_step dist vehiculos sol p with _ | sol1
      · have := greedy_step_isSome dist vehiculos sol p hv
        rw [hstep] at this
        exact absurd this (by simp)
      · exact ih sol1

lemma greedy_isSome (dist : Dist) (vehiculos : List Vehiculo) (pedidos : List Pedido)
    (hv : vehiculos ≠ []) : (solve_vrp_greedy dist vehiculos pedidos).isSome :=
  greedy_loop_isSome dist vehiculos hv _ _

lemma sortPedidos_ne_nil (pedidos : List Pedido) (hp : pedidos ≠ []) :
    sortPedidos pedidos ≠ [] := by
  intro h0
  have := congrArg List.length h0
  rw [sortPedidos, List.length_mergeSort] at this
  exact hp (List.length_eq_zero.mp this)

/-- The SA entry point is defined exactly when the greedy is, and the loop
then succeeds; collected access to the final state. -/
lemma sa_run (dist : Dist) (expFn : ℚ → ℚ) (vehiculos : List Vehiculo)
    (pedidos : List Pedido) (it cr : ℚ) (choices : List SAChoice) (hv : vehiculos ≠ []) :
    ∃ g stFin, solve_vrp_greedy dist vehiculos pedidos = some g ∧
      sa_loop dist expFn cr choices (sa_init dist g it) = some stFin ∧
      solve_vrp_simulated_annealing dist expFn vehiculos pedidos it cr choices =
        some stFin.best := by
  obtain ⟨g, hg⟩ := Option.isSome_iff_exists.mp (greedy_isSome dist vehiculos pedidos hv)
  have hgne : g.routes ≠ [] := by
    intro h0
    obtain ⟨_, hfst, _⟩ := greedy_props dist vehiculos pedidos g hg
    rw [h0] at hfst
    exact hv hfst.symm
  have hloop := sa_loop_isSome dist expFn cr choices (sa_init dist g it) hgne
  obtain ⟨stFin, hstFin⟩ := Option.isSome_iff_exists.mp hloop
  refine ⟨g, stFin, hg, hstFin, ?_⟩
  unfold solve_vrp_simulated_annealing
  rw [hg]
  simp only []
  rw [hstFin]

/-- The initial state satisfies the loop invariant. -/
lemma sa_init_inv (dist : Dist) (vehiculos : List Vehiculo) (pedidos : List Pedido)
    (g : Sol) (it : ℚ) (hg : solve_vrp_greedy dist vehiculos pedidos = some g) :
    SAInv dist vehiculos (pedidos : Multiset Pedido) (sa_init dist g it) := by
  obtain ⟨hm, hfst, _⟩ := greedy_props dist vehiculos pedidos g hg
  exact ⟨hfst, hfst, hm, hm, rfl, rfl⟩

/-! ## C1 — every order appears exactly once in the returned solution -/

/-- C1: for every fleet (nonempty, per the totality precondition of C10),
order list, parameters and random draw sequence, the solution returned by
`solve_vrp_simulated_annealing` carries each input order exactly once: the
multiset of orders across all routes plus the unassigned list equals the
input order multiset, and (for distinct inputs) no order appears twice
across or within routes. -/
theorem c1_sa_partitions_orders (dist : Dist) (expFn : ℚ → ℚ)
    (vehiculos : List Vehiculo) (pedidos : List Pedido) (it cr : ℚ)
    (choices : List SAChoice) (hv : vehiculos ≠ []) :
    ∃ sol, solve_vrp_simulated_annealing dist expFn vehiculos pedidos it cr choices =
        some sol ∧
      solM sol = (pedidos : Multiset Pedido) ∧
      (pedidos.Nodup → (routesM sol.routes).Nodup) := by
  obtain ⟨g, stFin, hg, hloop, hsolve⟩ := sa_run dist expFn vehiculos pedidos it cr choices hv
  obtain ⟨hinv_f, _, _⟩ :=
    sa_loop_facts dist expFn cr vehiculos (pedidos : Multiset Pedido) choices _ _ hloop
  have hinv := hinv_f (sa_init_inv dist vehiculos pedidos g it hg)
  refine ⟨stFin.best, hsolve, hinv.best_m, ?_⟩
  intro hnd
  have hsolnd : (solM stFin.best).Nodup := by
    rw [hinv.best_m]
    exact Multiset.coe_nodup.mpr hnd
  have hle : routesM stFin.best.routes ≤ solM stFin.best := Multiset.le_add_right _ _
  exact Multiset.nodup_of_le hle hsolnd

/-! ## C2 — every returned route satisfies the hard constraints -/

/-- C2: with contract-valid capacities, every route of the solution returned
by `solve_vrp_simulated_annealing` is feasible per `calculate_route_metrics`:
its total weight is within the vehicle's capacity, the simulated post-wait
arrival at every stop is within that stop's window close, and the simulated
route duration from the 08:00 start is at most `MAX_JORNADA_HORAS = 8`. -/
theorem c2_sa_routes_feasible (dist : Dist) (expFn : ℚ → ℚ)
    (vehiculos : List Vehiculo) (pedidos : List Pedido) (it cr : ℚ)
    (choices : List SAChoice) (hv : vehiculos ≠ [])
    (hcap : ∀ v ∈ vehiculos, 0 ≤ v.capacidad_kg) :
    ∃ sol, solve_vrp_simulated_annealing dist expFn vehiculos pedidos it cr choices =
        some sol ∧
      ∀ q ∈ sol.routes,
        (calculate_route_metrics dist q.1 q.2).is_feasible = true ∧
        sumPeso q.2 ≤ q.1.capacidad_kg ∧
        List.Forall₂ (fun time p => time ≤ (parseHHMM p.ventana_fin : ℚ))
          (evalSim dist q.1 q.2).1 q.2 ∧
        evalRouteHours dist q.1 q.2 ≤ MAX_JORNADA_HORAS := by
  obtain ⟨g, stFin, hg, hloop, hsolve⟩ := sa_run dist expFn vehiculos pedidos it cr choices hv
  obtain ⟨hinv_f, hmono, _⟩ :=
    sa_loop_facts dist expFn cr vehiculos (pedidos : Multiset Pedido) choices _ _ hloop
  have hinv := hinv_f (sa_init_inv dist vehiculos pedidos g it hg)
  obtain ⟨_, _, hfeas_g⟩ := greedy_props dist vehiculos pedidos g hg
  have hinit_fin : calculate_global_cost dist g.routes g.unassigned ≠ ⊤ :=
    (global_cost_ne_top_iff dist g.routes g.unassigned).mpr (hfeas_g hcap)
  have hbest_fin : stFin.best_cost ≠ ⊤ := by
    intro htop
    rw [htop] at hmono
    exact hinit_fin (top_le_iff.mp hmono)
  have hfeasb : FeasAll dist stFin.best.routes := by
    rw [hinv.best_cost_eq] at hbest_fin
    exact (global_cost_ne_top_iff dist _ _).mp hbest_fin
  refine ⟨stFin.best, hsolve, ?_⟩
  intro q hq
  have hfq := hfeasb q hq
  obtain ⟨hwin, hdur⟩ := metrics_feasible_facts dist q.1 q.2 hfq
  exact ⟨hfq, feasible_load_le dist q.1 q.2 hfq, hwin, hdur⟩

/-! ## C3 — an infeasible candidate is never committed -/

/-- C3: a candidate with global cost `+∞` can never be accepted: with
`Δ = +∞` the test `Δ < 0` fails and the Metropolis test fails because
`math.exp(-inf) = 0` and `random.random()` is non-negative; consequently,
starting from the greedy solution (finite cost under the capacity contract),
the committed current solution's global cost stays finite at every iteration
of every run. -/
theorem c3_infeasible_never_accepted (dist : Dist) (expFn : ℚ → ℚ)
    (vehiculos : List Vehiculo) (pedidos : List Pedido) (it cr : ℚ)
    (hcap : ∀ v ∈ vehiculos, 0 ≤ v.capacidad_kg) :
    (∀ (cur temp r : ℚ), 0 ≤ r →
      acceptMove ⊤ ((cur : ℚ) : WithTop ℚ) temp r expFn = false) ∧
    (∀ g, solve_vrp_greedy dist vehiculos pedidos = some g →
      ∀ (pre : List SAChoice), (∀ c ∈ pre, 0 ≤ c.r) →
        ∀ st', sa_loop dist expFn cr pre (sa_init dist g it) = some st' →
          st'.current_cost ≠ ⊤) := by
  constructor
  · intro cur temp r hr
    unfold acceptMove
    rw [if_pos rfl, if_neg WithTop.coe_ne_top]
    exact decide_eq_false (not_lt.mpr hr)
  · intro g hg pre hr st' hloop
    obtain ⟨_, _, hfin⟩ :=
      sa_loop_facts dist expFn cr vehiculos (pedidos : Multiset Pedido) pre _ _ hloop
    apply hfin hr
    obtain ⟨_, _, hfeas_g⟩ := greedy_props dist vehiculos pedidos g hg
    exact (global_cost_ne_top_iff dist g.routes g.unassigned).mpr (hfeas_g hcap)

/-! ## C4 — the returned solution is never worse than the greedy initial -/

/-- C4: for every input and random sequence, the global cost of the solution
returned by `solve_vrp_simulated_annealing` is at most the global cost of
the greedy initial solution: `best` starts as the greedy solution and is
replaced only on strict improvement of the committed cost. -/
theorem c4_sa_cost_le_greedy (dist : Dist) (expFn : ℚ → ℚ)
    (vehiculos : List Vehiculo) (pedidos : List Pedido) (it cr : ℚ)
    (choices : List SAChoice) (hv : vehiculos ≠ []) :
    ∃ g sol, solve_vrp_greedy dist vehiculos pedidos = some g ∧
      solve_vrp_simulated_annealing dist expFn vehiculos pedidos it cr choices = some sol ∧
      calculate_global_cost dist sol.routes sol.unassigned ≤
        calculate_global_cost dist g.routes g.unassigned := by
  obtain ⟨g, stFin, hg, hloop, hsolve⟩ := sa_run dist expFn vehiculos pedidos it cr choices hv
  obtain ⟨hinv_f, hmono, _⟩ :=
    sa_loop_facts dist expFn cr vehiculos (pedidos : Multiset Pedido) choices _ _ hloop
  have hinv := hinv_f (sa_init_inv dist vehiculos pedidos g it hg)
  refine ⟨g, stFin.best, hg, hsolve, ?_⟩
  rw [← hinv.best_cost_eq]
  exact hmono

/-! ## C10 — totality: the empty-fleet case raises -/

lemma greedy_empty_fleet (dist : Dist) (pedidos : List Pedido) (hp : pedidos ≠ []) :
    solve_vrp_greedy dist [] pedidos = none := by
  rcases hsp : sortPedidos pedidos with _ | ⟨p, rest⟩
  · exact absurd hsp (sortPedidos_ne_nil pedidos hp)
  · unfold solve_vrp_greedy
    rw [hsp]
    rfl

/-- C10: the solvers are total only when the fleet is non-empty whenever the
order list is non-empty.  With an empty fleet and at least one order, the
greedy's per-order `max()` over the fleet capacities is taken over an empty
sequence and raises (`none`) instead of recording the orders as unassigned,
and `solve_vrp_simulated_annealing` therefore raises too; with a non-empty
fleet both solvers always return a solution. -/
theorem c10_totality :
    (∀ (dist : Dist) (pedidos : List Pedido), pedidos ≠ [] →
      solve_vrp_greedy dist [] pedidos = none) ∧
    (∀ (dist : Dist) (expFn : ℚ → ℚ) (pedidos : List Pedido) (it cr : ℚ)
      (choices : List SAChoice), pedidos ≠ [] →
      solve_vrp_simulated_annealing dist expFn [] pedidos it cr choices = none) ∧
    (∀ (dist : Dist) (vehiculos : List Vehiculo) (pedidos : List Pedido), vehiculos ≠ [] →
      (solve_vrp_greedy dist vehiculos pedidos).isSome) ∧
    (∀ (dist : Dist) (expFn : ℚ → ℚ) (vehiculos : List Vehiculo) (pedidos : List Pedido)
      (it cr : ℚ) (choices : List SAChoice), vehiculos ≠ [] →
      (solve_vrp_simulated_annealing dist expFn vehiculos pedidos it cr choices).isSome) := by
  refine ⟨greedy_empty_fleet, ?_, ?_, ?_⟩
  · intro dist expFn pedidos it cr choices hp
    unfold solve_vrp_simulated_annealing
    rw [greedy_empty_fleet dist pedidos hp]
  · intro dist vehiculos pedidos hv
    exact greedy_isSome dist vehiculos pedidos hv
  · intro dist expFn vehiculos pedidos it cr choices hv
    obtain ⟨g, stFin, hg, hloop, hsolve⟩ :=
      sa_run dist expFn vehiculos pedidos it cr choices hv
    rw [hsolve]
    rfl

/-! ## Example inputs used by the witness instantiations -/

def distEx : Dist := fun _ _ _ _ => 0
def expFnEx : ℚ → ℚ := fun _ => 0
def vehEx : Vehiculo := ⟨"V1", 100, 0, 0⟩
def w0800 : List Char := ['0', '8', ':', '0', '0']
def w1800 : List Char := ['1', '8', ':', '0', '0']
def pedEx : Pedido := ⟨"P1", 1, 1, 50, w0800, w1800, 3⟩
def choiceEx : SAChoice := ⟨0, 0, 0, 0, 0, 0, 0, 0, 0⟩

lemma parse_w0800 : parseHHMM w0800 = 480 := rfl
lemma parse_w1800 : parseHHMM w1800 = 1080 := rfl

lemma metricsEx_feasible : (calculate_route_metrics distEx vehEx [pedEx]).is_feasible = true := by
  norm_num [calculate_route_metrics, routeMetricsLoop, sumPeso, vehEx, pedEx, distEx,
    parse_w0800, parse_w1800, HORA_INICIO_MIN, VELOCIDAD_PROMEDIO_KMH,
    TIEMPO_SERVICIO_MINUTOS, MAX_JORNADA_HORAS]

/-- Witness for C1 at a concrete instance. -/
theorem c1_witness :
    ∃ sol, solve_vrp_simulated_annealing distEx expFnEx [vehEx] [pedEx] 1000 (995/1000)
        [choiceEx] = some sol ∧
      solM sol = (([pedEx] : List Pedido) : Multiset Pedido) ∧
      (([pedEx] : List Pedido).Nodup → (routesM sol.routes).Nodup) :=
  c1_sa_partitions_orders distEx expFnEx [vehEx] [pedEx] 1000 (995/1000) [choiceEx]
    (by simp)

/-- Witness for C2 at a concrete instance. -/
theorem c2_witness :
    ∃ sol, solve_vrp_simulated_annealing distEx expFnEx [vehEx] [pedEx] 1000 (995/1000)
        [choiceEx] = some sol ∧
      ∀ q ∈ sol.routes,
        (calculate_route_metrics distEx q.1 q.2).is_feasible = true ∧
        sumPeso q.2 ≤ q.1.capacidad_kg ∧
        List.Forall₂ (fun time p => time ≤ (parseHHMM p.ventana_fin : ℚ))
          (evalSim distEx q.1 q.2).1 q.2 ∧
        evalRouteHours distEx q.1 q.2 ≤ MAX_JORNADA_HORAS :=
  c2_sa_routes_feasible distEx expFnEx [vehEx] [pedEx] 1000 (995/1000) [choiceEx]
    (by simp)
    (by
      intro v hv
      simp only [List.mem_singleton] at hv
      subst hv
      show (0 : ℚ) ≤ 100
      norm_num)

/-- Witness for C3 at a concrete instance. -/
theorem c3_witness :
    (∀ (cur temp r : ℚ), 0 ≤ r →
      acceptMove ⊤ ((cur : ℚ) : WithTop ℚ) temp r expFnEx = false) ∧
    (∀ g, solve_vrp_greedy distEx [vehEx] [pedEx] = some g →
      ∀ (pre : List SAChoice), (∀ c ∈ pre, 0 ≤ c.r) →
        ∀ st', sa_loop distEx expFnEx (995/1000) pre (sa_init distEx g 1000) = some st' →
          st'.current_cost ≠ ⊤) :=
  c3_infeasible_never_accepted distEx expFnEx [vehEx] [pedEx] 1000 (995/1000)
    (by
      intro v hv
      simp only [List.mem_singleton] at hv
      subst hv
      show (0 : ℚ) ≤ 100
      norm_num)

/-- Witness for C4 at a concrete instance. -/
theorem c4_witness :
    ∃ g sol, solve_vrp_greedy distEx [vehEx] [pedEx] = some g ∧
      solve_vrp_simulated_annealing distEx expFnEx [vehEx] [pedEx] 1000 (995/1000)
        [choiceEx] = some sol ∧
      calculate_global_cost distEx sol.routes sol.unassigned ≤
        calculate_global_cost distEx g.routes g.unassigned :=
  c4_sa_cost_le_greedy distEx expFnEx [vehEx] [pedEx] 1000 (995/1000) [choiceEx] (by simp)

/-- Witness for C5 at a concrete instance. -/
theorem c5_witness :
    calculate_global_cost distEx [(vehEx, [pedEx])] [] =
      spec_global_cost distEx [(vehEx, [pedEx])] [] :=
  c5_global_cost_spec distEx [(vehEx, [pedEx])] []
    (by
      intro p hp
      simp only [List.mem_singleton] at hp
      subst hp
      show (0 : ℚ) < 100
      norm_num)

/-- Witness for C6 at a concrete instance. -/
theorem c6_witness :
    (calculate_route_metrics distEx vehEx [pedEx]).load_kg = sumPeso [pedEx] ∧
    (sumPeso [pedEx] > vehEx.capacidad_kg →
      calculate_route_metrics distEx vehEx [pedEx] =
        { distance_km := 0, wait_minutes := 0, load_kg := sumPeso [pedEx],
          overtime_hours := 0, lateness_count := 0, is_feasible := false,
          rejection_reason := .capacidadExcedida (sumPeso [pedEx]) vehEx.capacidad_kg }) ∧
    (calculate_route_metrics distEx vehEx [pedEx]).lateness_count ≤ 1 :=
  c6_metrics_load_capacity_lateness distEx vehEx [pedEx]

/-- Witness for C7 at a concrete instance. -/
theorem c7_witness :
    (sortPedidos [pedEx]).Perm [pedEx] ∧
    (sortPedidos [pedEx]).Pairwise (fun a b =>
      b.prioridad < a.prioridad ∨
        (a.prioridad = b.prioridad ∧
          parseHHMM a.ventana_inicio ≤ parseHHMM b.ventana_inicio)) ∧
    (∀ a b : Pedido, keyOf a = keyOf b → List.Sublist [a, b] [pedEx] →
      List.Sublist [a, b] (sortPedidos [pedEx])) :=
  c7_greedy_sort [pedEx]
    (by
      intro p hp
      simp only [List.mem_singleton] at hp
      subst hp
      decide)

/-- Witness for C8 at a concrete instance. -/
theorem c8_witness :
    (mainSim distEx vehEx [pedEx]).1 = (evalSim distEx vehEx [pedEx]).1 ∧
    (mainSim distEx vehEx [pedEx]).1.map fmtHHMM =
      ((evalSim distEx vehEx [pedEx]).1.map fmtHHMM) ∧
    mainRouteHours distEx vehEx [pedEx] = evalRouteHours distEx vehEx [pedEx] ∧
    List.Forall₂ (fun time p => time ≤ (parseHHMM p.ventana_fin : ℚ))
      (mainSim distEx vehEx [pedEx]).1 [pedEx] :=
  c8_output_matches_evaluator distEx vehEx [pedEx] (by simp) metricsEx_feasible

/-- Witness for C10 at concrete instances. -/
theorem c10_witness :
    solve_vrp_greedy distEx [] [pedEx] = none ∧
    solve_vrp_simulated_annealing distEx expFnEx [] [pedEx] 1000 (995/1000) [choiceEx]
      = none ∧
    (solve_vrp_greedy distEx [vehEx] [pedEx]).isSome ∧
    (solve_vrp_simulated_annealing distEx expFnEx [vehEx] [pedEx] 1000 (995/1000)
      [choiceEx]).isSome :=
  ⟨c10_totality.1 distEx [pedEx] (by simp),
   c10_totality.2.1 distEx expFnEx [pedEx] 1000 (995/1000) [choiceEx] (by simp),
   c10_totality.2.2.1 distEx [vehEx] [pedEx] (by simp),
   c10_totality.2.2.2 distEx expFnEx [vehEx] [pedEx] 1000 (995/1000) [choiceEx] (by simp)⟩

end VRP
